import Mathlib

/-!
# gcping: endpoint directory builder and ping handlers

A shallow embedding of `internal/config/endpoints.go` and `cmd/ping/main.go`.

The two Go files lean on `encoding/json`; the part of that package the code
exercises is embedded first (JSON text scanning, string unquoting, and the
reflection-driven store into struct and string targets), followed by the
repository's own functions under their source names.

Bytes are natural numbers (a Go `byte` is a number below 256); Go strings that
come out of the JSON decoder are always valid UTF-8 and are Lean `String`s.
-/

namespace Gcping

/-! ## JSON values and tokens -/

/-- A JSON value as `encoding/json` sees it after scanning: object members are
kept in source order and may repeat a key; string contents are unquoted. -/
inductive JValue where
  | null
  | bool (b : Bool)
  | number (raw : List Nat)
  | string (s : String)
  | array (elems : List JValue)
  | object (members : List (String × JValue))

/-- Lexical tokens of a JSON text. -/
inductive Token where
  | beginObject
  | endObject
  | beginArray
  | endArray
  | colon
  | comma
  | string (s : String)
  | number (raw : List Nat)
  | litTrue
  | litFalse
  | litNull

/-- One unit of a string literal body: a byte standing for itself (a source
byte, or the byte named by a single-character escape), or a `\uXXXX` escape
with its 16-bit value. -/
inductive Seg where
  | raw (b : Nat)
  | u16 (n : Nat)

/-! ## String unquoting (`unquoteBytes`, `utf8.DecodeRune`, `utf16.DecodeRune`) -/

/-- The Unicode replacement character U+FFFD (`utf8.RuneError`). -/
def runeError : Char := Char.ofNat 0xFFFD

/-- The table `first` of package `utf8` for lead bytes of multi-byte
sequences: the sequence length and the accepted range of the second byte. -/
def utf8First (p0 : Nat) : Option (Nat × Nat × Nat) :=
  if 0xC2 ≤ p0 ∧ p0 ≤ 0xDF then some (2, 0x80, 0xBF)
  else if p0 = 0xE0 then some (3, 0xA0, 0xBF)
  else if 0xE1 ≤ p0 ∧ p0 ≤ 0xEC then some (3, 0x80, 0xBF)
  else if p0 = 0xED then some (3, 0x80, 0x9F)
  else if 0xEE ≤ p0 ∧ p0 ≤ 0xEF then some (3, 0x80, 0xBF)
  else if p0 = 0xF0 then some (4, 0x90, 0xBF)
  else if 0xF1 ≤ p0 ∧ p0 ≤ 0xF3 then some (4, 0x80, 0xBF)
  else if p0 = 0xF4 then some (4, 0x80, 0x8F)
  else none

/-- A UTF-8 continuation byte (`locb ≤ b ≤ hicb`). -/
def isCont (b : Nat) : Bool := 0x80 ≤ b && b ≤ 0xBF

/-- The rune a lone `\uXXXX` escape denotes: surrogate halves become U+FFFD. -/
def u16Rune (n : Nat) : Char :=
  if 0xD800 ≤ n ∧ n < 0xE000 then runeError else Char.ofNat n

/-- The rune that starts at segment `s` of a string literal body, with the
number of segments it takes, as `unquoteBytes` reads it: an ASCII byte stands
for itself; a well-formed UTF-8 sequence is decoded (`utf8.DecodeRune`); any
other byte is coerced to U+FFFD, one byte at a time; a `\uXXXX` escape is its
code point, merged with a directly following one when the two form a
surrogate pair (`utf16.DecodeRune`). -/
def decodeAt (s : Seg) (tl : List Seg) : Char × Nat :=
  match s with
  | .u16 hi =>
    match tl with
    | .u16 lo :: _ =>
      if 0xD800 ≤ hi ∧ hi < 0xDC00 ∧ 0xDC00 ≤ lo ∧ lo < 0xE000 then
        (Char.ofNat ((hi - 0xD800) * 0x400 + (lo - 0xDC00) + 0x10000), 2)
      else (u16Rune hi, 1)
    | _ => (u16Rune hi, 1)
  | .raw p0 =>
    if p0 < 0x80 then (Char.ofNat p0, 1)
    else
      match utf8First p0, tl with
      | some (2, lo, hi), .raw b1 :: _ =>
        if lo ≤ b1 ∧ b1 ≤ hi then (Char.ofNat ((p0 % 0x20) * 0x40 + b1 % 0x40), 2)
        else (runeError, 1)
      | some (3, lo, hi), .raw b1 :: .raw b2 :: _ =>
        if lo ≤ b1 ∧ b1 ≤ hi ∧ isCont b2 then
          (Char.ofNat ((p0 % 0x10) * 0x1000 + (b1 % 0x40) * 0x40 + b2 % 0x40), 3)
        else (runeError, 1)
      | some (4, lo, hi), .raw b1 :: .raw b2 :: .raw b3 :: _ =>
        if lo ≤ b1 ∧ b1 ≤ hi ∧ isCont b2 ∧ isCont b3 then
          (Char.ofNat ((p0 % 0x08) * 0x40000 + (b1 % 0x40) * 0x1000 + (b2 % 0x40) * 0x40
            + b3 % 0x40), 4)
        else (runeError, 1)
      | _, _ => (runeError, 1)

/-- The loop of `unquoteBytes`; `skip` counts the segments still belonging to
the rune decoded last. -/
def unquoteFrom : Nat → List Seg → List Char
  | _, [] => []
  | 0, s :: tl => (decodeAt s tl).1 :: unquoteFrom ((decodeAt s tl).2 - 1) tl
  | k + 1, _ :: tl => unquoteFrom k tl

/-- The Go string a string literal body denotes (`unquote`). -/
def unquote (body : List Seg) : String := String.mk (unquoteFrom 0 body)

/-! ## Scanning (`scanner`, `checkValid`)

The scanner of `encoding/json` accepts exactly the JSON texts of RFC 8259
nested at most 10000 deep. It is embedded as a tokenizer followed by a
stack parser; both read their input once, left to right. -/

/-- The number states of the scanner (`stateNeg`, `state0`, `state1`,
`stateDot`, `stateDot0`, `stateE`, `stateESign`, `stateE0`). -/
inductive NumState where
  | neg
  | zero
  | int
  | dot
  | frac
  | exp
  | expSign
  | expDigits

/-- An ASCII decimal digit. -/
def isDigit (c : Nat) : Bool := 0x30 ≤ c && c ≤ 0x39

/-- One more byte of a number, `none` when the byte cannot continue it. -/
def NumState.step : NumState → Nat → Option NumState
  | .neg, c => if c = 0x30 then some .zero else if isDigit c then some .int else none
  | .zero, c =>
    if c = 0x2E then some .dot else if c = 0x65 ∨ c = 0x45 then some .exp else none
  | .int, c =>
    if isDigit c then some .int
    else if c = 0x2E then some .dot else if c = 0x65 ∨ c = 0x45 then some .exp else none
  | .dot, c => if isDigit c then some .frac else none
  | .frac, c =>
    if isDigit c then some .frac else if c = 0x65 ∨ c = 0x45 then some .exp else none
  | .exp, c =>
    if c = 0x2B ∨ c = 0x2D then some .expSign else if isDigit c then some .expDigits else none
  | .expSign, c => if isDigit c then some .expDigits else none
  | .expDigits, c => if isDigit c then some .expDigits else none

/-- The number states in which the number may end. -/
def NumState.final : NumState → Bool
  | .zero => true
  | .int => true
  | .frac => true
  | .expDigits => true
  | _ => false

/-- Where the tokenizer stands between two bytes. -/
inductive Mode where
  | top
  | str (acc : List Seg)
  | strEsc (acc : List Seg)
  | strEscU (acc : List Seg) (digits : Nat) (value : Nat)
  | num (st : NumState) (acc : List Nat)
  | lit (rest : List Nat) (tok : Token)

/-- The value of a hexadecimal digit. -/
def hexVal (c : Nat) : Option Nat :=
  if isDigit c then some (c - 0x30)
  else if 0x61 ≤ c ∧ c ≤ 0x66 then some (c - 0x61 + 10)
  else if 0x41 ≤ c ∧ c ≤ 0x46 then some (c - 0x41 + 10)
  else none

/-- The byte a single-character escape denotes (`stateInStringEsc`). -/
def escByte (c : Nat) : Option Nat :=
  if c = 0x62 then some 0x08
  else if c = 0x66 then some 0x0C
  else if c = 0x6E then some 0x0A
  else if c = 0x72 then some 0x0D
  else if c = 0x74 then some 0x09
  else if c = 0x5C ∨ c = 0x2F ∨ c = 0x22 then some c
  else none

/-- A byte met where a token may start: `none` is a syntax error, otherwise
the token completed by this byte (if any) and the mode for the next byte. -/
def startToken (c : Nat) : Option (Option Token × Mode) :=
  if c = 0x20 ∨ c = 0x09 ∨ c = 0x0D ∨ c = 0x0A then some (none, .top)
  else if c = 0x7B then some (some .beginObject, .top)
  else if c = 0x7D then some (some .endObject, .top)
  else if c = 0x5B then some (some .beginArray, .top)
  else if c = 0x5D then some (some .endArray, .top)
  else if c = 0x3A then some (some .colon, .top)
  else if c = 0x2C then some (some .comma, .top)
  else if c = 0x22 then some (none, .str [])
  else if c = 0x2D then some (none, .num .neg [c])
  else if c = 0x30 then some (none, .num .zero [c])
  else if isDigit c then some (none, .num .int [c])
  else if c = 0x74 then some (none, .lit [0x72, 0x75, 0x65] .litTrue)
  else if c = 0x66 then some (none, .lit [0x61, 0x6C, 0x73, 0x65] .litFalse)
  else if c = 0x6E then some (none, .lit [0x75, 0x6C, 0x6C] .litNull)
  else none

/-- The tokenizer: the tokens of a byte sequence, `none` on a lexical error. -/
def lex : Mode → List Nat → Option (List Token)
  | .top, [] => some []
  | .top, c :: cs =>
    match startToken c with
    | none => none
    | some (none, m) => lex m cs
    | some (some t, m) => (lex m cs).map (fun ts => t :: ts)
  | .str _, [] => none
  | .str acc, c :: cs =>
    if c = 0x22 then (lex .top cs).map (fun ts => .string (unquote acc.reverse) :: ts)
    else if c = 0x5C then lex (.strEsc acc) cs
    else if c < 0x20 then none
    else lex (.str (.raw c :: acc)) cs
  | .strEsc _, [] => none
  | .strEsc acc, c :: cs =>
    if c = 0x75 then lex (.strEscU acc 0 0) cs
    else
      match escByte c with
      | some b => lex (.str (.raw b :: acc)) cs
      | none => none
  | .strEscU _ _ _, [] => none
  | .strEscU acc k n, c :: cs =>
    match hexVal c with
    | none => none
    | some d =>
      if k = 3 then lex (.str (.u16 (n * 16 + d) :: acc)) cs
      else lex (.strEscU acc (k + 1) (n * 16 + d)) cs
  | .num st acc, [] => if st.final then some [.number acc.reverse] else none
  | .num st acc, c :: cs =>
    match st.step c with
    | some st1 => lex (.num st1 (c :: acc)) cs
    | none =>
      if st.final then
        match startToken c with
        | none => none
        | some (none, m) => (lex m cs).map (fun ts => .number acc.reverse :: ts)
        | some (some t, m) => (lex m cs).map (fun ts => .number acc.reverse :: t :: ts)
      else none
  | .lit _ _, [] => none
  | .lit [] _, _ :: _ => none
  | .lit [x] tok, c :: cs => if c = x then (lex .top cs).map (fun ts => tok :: ts) else none
  | .lit (x :: y :: rest) tok, c :: cs => if c = x then lex (.lit (y :: rest) tok) cs else none

/-- An open array or object on the parse stack, with what it holds so far
(latest first) and, for an object, the key whose value is being read. -/
inductive Frame where
  | array (elems : List JValue)
  | object (members : List (String × JValue)) (key : Option String)

/-- What the parser may read next. -/
inductive Expect where
  | value
  | valueOrEnd
  | keyOrEnd
  | key
  | colon
  | commaOrEnd
  | done (v : JValue)

/-- The nesting limit of the scanner (`maxNestingDepth`). -/
def maxNestingDepth : Nat := 10000

/-- A value is complete: hand it to the enclosing array or object. -/
def complete (v : JValue) : List Frame → Option (List Frame × Expect)
  | [] => some ([], .done v)
  | .array es :: st => some (.array (v :: es) :: st, .commaOrEnd)
  | .object ms (some k) :: st => some (.object ((k, v) :: ms) none :: st, .commaOrEnd)
  | .object _ none :: _ => none

/-- A token where a value is expected. -/
def beginValue (st : List Frame) : Token → Option (List Frame × Expect)
  | .litNull => complete .null st
  | .litTrue => complete (.bool true) st
  | .litFalse => complete (.bool false) st
  | .number raw => complete (.number raw) st
  | .string s => complete (.string s) st
  | .beginArray =>
    if st.length + 1 ≤ maxNestingDepth then some (.array [] :: st, .valueOrEnd) else none
  | .beginObject =>
    if st.length + 1 ≤ maxNestingDepth then some (.object [] none :: st, .keyOrEnd) else none
  | _ => none

/-- One token of the parser, `none` on a syntax error. -/
def parseStep (st : List Frame) (ex : Expect) (t : Token) : Option (List Frame × Expect) :=
  match ex, t, st with
  | .value, t, st => beginValue st t
  | .valueOrEnd, .endArray, .array es :: st => complete (.array es.reverse) st
  | .valueOrEnd, t, st => beginValue st t
  | .keyOrEnd, .endObject, .object ms none :: st => complete (.object ms.reverse) st
  | .keyOrEnd, .string k, .object ms none :: st => some (.object ms (some k) :: st, .colon)
  | .key, .string k, .object ms none :: st => some (.object ms (some k) :: st, .colon)
  | .colon, .colon, st => some (st, .value)
  | .commaOrEnd, .comma, .array es :: st => some (.array es :: st, .value)
  | .commaOrEnd, .comma, .object ms none :: st => some (.object ms none :: st, .key)
  | .commaOrEnd, .endArray, .array es :: st => complete (.array es.reverse) st
  | .commaOrEnd, .endObject, .object ms none :: st => complete (.object ms.reverse) st
  | _, _, _ => none

/-- The parser: the single value a token sequence spells, if it spells one. -/
def parseTokens : List Frame → Expect → List Token → Option JValue
  | _, .done v, [] => some v
  | _, _, [] => none
  | st, ex, t :: ts =>
    match parseStep st ex t with
    | none => none
    | some (st1, ex1) => parseTokens st1 ex1 ts

/-- The value of a JSON text; `none` when `checkValid` reports a syntax
error. -/
def parse (data : List Nat) : Option JValue :=
  (lex .top data).bind (parseTokens [] .value)

/-- The bytes of an ASCII string. -/
def ascii (s : String) : List Nat := s.data.map Char.toNat

/-! ## Decoding into Go values (`decodeState`)

Only two kinds of target occur in this program: Go strings and structs whose
fields are strings or such structs. No target implements `Unmarshaler` below
the top, so a mismatch between a JSON value and its target is recorded
(`saveError` keeps the first one) and decoding goes on. -/

/-- The errors `json.Unmarshal` returns here: a `*json.SyntaxError` from
`checkValid`, or a `*json.UnmarshalTypeError` with its `Value` (the kind of
JSON value met) and `Type` (the Go type it could not be stored in). -/
inductive UnmarshalError where
  | invalidJSON
  | type (value : String) (goType : String)
  deriving DecidableEq, Repr

/-- The first error wins (`decodeState.saveError`). -/
def saveError (saved err : Option UnmarshalError) : Option UnmarshalError :=
  match saved with
  | some e => some e
  | none => err

/-- The rune `foldRune` maps a non-ASCII rune to: the smallest rune of its
simple-folding orbit. Only U+017F (long s) and U+212A (Kelvin sign) have an
orbit that reaches ASCII; every other non-ASCII rune folds to a non-ASCII
rune, which is all that matching against the ASCII field names of this
program depends on, so those are left in place. -/
def foldRune (r : Char) : Char :=
  if r.toNat = 0x17F then 'S' else if r.toNat = 0x212A then 'K' else r

/-- The name with its case folded away (`foldName`): ASCII lower-case letters
become upper-case, other ASCII stays, non-ASCII runes go through
`foldRune`. -/
def foldName (s : String) : String :=
  String.mk (s.data.map fun c =>
    if 0x61 ≤ c.toNat ∧ c.toNat ≤ 0x7A then Char.ofNat (c.toNat - 0x20)
    else if c.toNat < 0x80 then c
    else foldRune c)

/-- The characters of a struct tag value up to its closing quote; `none` when
the quote is never closed. -/
def tagValue : List Char → Option (List Char)
  | [] => none
  | c :: cs => if c = '"' then some [] else (tagValue cs).map (fun v => c :: v)

/-- The object key `encoding/json` uses for a struct field
(`reflect.StructTag.Get` followed by `typeFields`): the value of a
well-formed tag of the shape json:"name", and the Go field name when the tag
is not of that shape. A tag whose quote is left open is not well-formed, so
`Lookup` finds no json key in it. (The tags of this program carry neither
options nor escapes.) -/
def jsonName (goName tag : String) : String :=
  match tag.data with
  | 'j' :: 's' :: 'o' :: 'n' :: ':' :: '"' :: rest =>
    match tagValue rest with
    | some (c :: cs) => String.mk (c :: cs)
    | _ => goName
  | _ => goName

/-- A field of a struct type of state `σ` as the decoder knows it: its object
key, and what storing a JSON value in it does to the struct, with the error
that storing raises (if any). -/
structure Field (σ : Type) where
  name : String
  store : JValue → σ → σ × Option UnmarshalError

/-- The field an object key selects: one whose name is the key exactly,
otherwise one whose name equals it up to case folding (`byExactName`, then
`byFoldedName`): "preferring an exact match but also accepting a
case-insensitive match", in the words of the package documentation. -/
def findField {σ : Type} (fields : List (Field σ)) (key : String) : Option (Field σ) :=
  match fields.find? (fun f => f.name == key) with
  | some f => some f
  | none => fields.find? (fun f => foldName f.name == foldName key)

/-- Storing a JSON value in a Go string (`literalStore`, and the default
branches of `object` and `array`): a string is stored; null "has no effect on
the value and produces no error"; anything else is a type error. -/
def storeString (v : JValue) (cur : String) : String × Option UnmarshalError :=
  match v with
  | .string s => (s, none)
  | .null => (cur, none)
  | .bool _ => (cur, some (.type "bool" "string"))
  | .number _ => (cur, some (.type "number" "string"))
  | .array _ => (cur, some (.type "array" "string"))
  | .object _ => (cur, some (.type "object" "string"))

/-- One member of an object met while decoding into a struct: its value is
stored in the field its key selects, and skipped when the key selects no
field. The state is the struct so far and the error saved so far. -/
def storeMember {σ : Type} (fields : List (Field σ)) (st : σ × Option UnmarshalError)
    (m : String × JValue) : σ × Option UnmarshalError :=
  match findField fields m.1 with
  | some f => ((f.store m.2 st.1).1, saveError st.2 (f.store m.2 st.1).2)
  | none => st

/-- Storing a JSON value in a Go struct (`decodeState.object` on a struct, and
the other kinds of value on a struct target): the members of an object are
taken in order; null leaves the struct as it is; anything else is a type
error. -/
def storeStruct {σ : Type} (goType : String) (fields : List (Field σ))
    (v : JValue) (cur : σ) : σ × Option UnmarshalError :=
  match v with
  | .object members => members.foldl (storeMember fields) (cur, none)
  | .null => (cur, none)
  | .bool _ => (cur, some (.type "bool" goType))
  | .number _ => (cur, some (.type "number" goType))
  | .string _ => (cur, some (.type "string" goType))
  | .array _ => (cur, some (.type "array" goType))

/-- Decoding a JSON array into a fresh slice of a type that implements
`Unmarshaler` (`decodeState.array`, reached from `json.Unmarshal(s, &slice)`),
the error dropped as both callers drop it. The array is taken element by
element, each element decoded by handing its text to the `UnmarshalJSON` of
the element type, whatever kind of value it is. What the slice holds from an
element whose `UnmarshalJSON` fails on is not the same in every version of
`encoding/json`: some versions return at once, leaving one zero element for
the failing element and the later elements unread, others go on with the
later elements. That part is the parameter `afterError`, applied to the
failing element and the elements after it. -/
def decodeSlice {V : Type} (unmarshal : JValue → Except UnmarshalError V)
    (afterError : List JValue → List V) : List JValue → List V
  | [] => []
  | item :: rest =>
    match unmarshal item with
    | .ok e => e :: decodeSlice unmarshal afterError rest
    | .error _ => afterError (item :: rest)

/-- A field of `σ` of type `α`, from its getter, its setter and the way a
JSON value is stored in an `α`. -/
def Field.mk1 {σ α : Type} (name : String) (get : σ → α) (set : σ → α → σ)
    (store : JValue → α → α × Option UnmarshalError) : Field σ :=
  { name := name
    store := fun v s => (set s (store v (get s)).1, (store v (get s)).2) }

/-! ## The private models of `UnmarshalJSON`

`Endpoint.UnmarshalJSON` (internal/config) and `Service.UnmarshalJSON`
(cmd/ping) declare the same nine struct types with the same tags; they are
embedded once. -/

/-- Go struct labelsInner. -/
structure labelsInner where
  Location : String := ""
  deriving DecidableEq, Repr

/-- Go struct annotationsInner. -/
structure annotationsInner where
  RegionName : String := ""
  deriving DecidableEq, Repr

/-- Go struct templateMetadataInner. -/
structure templateMetadataInner where
  Annotations : annotationsInner := {}
  deriving DecidableEq, Repr

/-- Go struct templateInner. -/
structure templateInner where
  Metadata : templateMetadataInner := {}
  deriving DecidableEq, Repr

/-- Go struct specInner. -/
structure specInner where
  Template : templateInner := {}
  deriving DecidableEq, Repr

/-- Go struct metadataInner. -/
structure metadataInner where
  Labels : labelsInner := {}
  Name : String := ""
  deriving DecidableEq, Repr

/-- Go struct addressInner. -/
structure addressInner where
  Url : String := ""
  deriving DecidableEq, Repr

/-- Go struct statusInner. -/
structure statusInner where
  Address : addressInner := {}
  deriving DecidableEq, Repr

/-- Go struct nestedService. -/
structure nestedService where
  Metadata : metadataInner := {}
  Status : statusInner := {}
  Spec : specInner := {}
  deriving DecidableEq, Repr

/-- Fields of labelsInner. -/
def labelsInner.fields : List (Field labelsInner) :=
  [Field.mk1 (jsonName "Location" "json:\"cloud.googleapis.com/location\"")
    (fun s => s.Location) (fun s x => { s with Location := x }) storeString]

/-- Decoder of labelsInner. -/
def labelsInner.store : JValue → labelsInner → labelsInner × Option UnmarshalError :=
  storeStruct "labelsInner" labelsInner.fields

/-- Fields of annotationsInner. -/
def annotationsInner.fields : List (Field annotationsInner) :=
  [Field.mk1 (jsonName "RegionName" "json:\"region-name\"")
    (fun s => s.RegionName) (fun s x => { s with RegionName := x }) storeString]

/-- Decoder of annotationsInner. -/
def annotationsInner.store :
    JValue → annotationsInner → annotationsInner × Option UnmarshalError :=
  storeStruct "annotationsInner" annotationsInner.fields

/-- Fields of templateMetadataInner. The tag of `Annotations` is written
without its closing quote in the source, so the field goes by its Go name
and the key "annotations" reaches it through case folding. -/
def templateMetadataInner.fields : List (Field templateMetadataInner) :=
  [Field.mk1 (jsonName "Annotations" "json:\"annotations")
    (fun s => s.Annotations) (fun s x => { s with Annotations := x }) annotationsInner.store]

/-- Decoder of templateMetadataInner. -/
def templateMetadataInner.store :
    JValue → templateMetadataInner → templateMetadataInner × Option UnmarshalError :=
  storeStruct "templateMetadataInner" templateMetadataInner.fields

/-- Fields of templateInner. -/
def templateInner.fields : List (Field templateInner) :=
  [Field.mk1 (jsonName "Metadata" "json:\"metadata\"")
    (fun s => s.Metadata) (fun s x => { s with Metadata := x }) templateMetadataInner.store]

/-- Decoder of templateInner. -/
def templateInner.store : JValue → templateInner → templateInner × Option UnmarshalError :=
  storeStruct "templateInner" templateInner.fields

/-- Fields of specInner. -/
def specInner.fields : List (Field specInner) :=
  [Field.mk1 (jsonName "Template" "json:\"template\"")
    (fun s => s.Template) (fun s x => { s with Template := x }) templateInner.store]

/-- Decoder of specInner. -/
def specInner.store : JValue → specInner → specInner × Option UnmarshalError :=
  storeStruct "specInner" specInner.fields

/-- Fields of metadataInner. -/
def metadataInner.fields : List (Field metadataInner) :=
  [Field.mk1 (jsonName "Labels" "json:\"labels\"")
    (fun s => s.Labels) (fun s x => { s with Labels := x }) labelsInner.store,
   Field.mk1 (jsonName "Name" "json:\"name\"")
    (fun s => s.Name) (fun s x => { s with Name := x }) storeString]

/-- Decoder of metadataInner. -/
def metadataInner.store : JValue → metadataInner → metadataInner × Option UnmarshalError :=
  storeStruct "metadataInner" metadataInner.fields

/-- Fields of addressInner. -/
def addressInner.fields : List (Field addressInner) :=
  [Field.mk1 (jsonName "Url" "json:\"url\"")
    (fun s => s.Url) (fun s x => { s with Url := x }) storeString]

/-- Decoder of addressInner. -/
def addressInner.store : JValue → addressInner → addressInner × Option UnmarshalError :=
  storeStruct "addressInner" addressInner.fields

/-- Fields of statusInner. -/
def statusInner.fields : List (Field statusInner) :=
  [Field.mk1 (jsonName "Address" "json:\"address\"")
    (fun s => s.Address) (fun s x => { s with Address := x }) addressInner.store]

/-- Decoder of statusInner. -/
def statusInner.store : JValue → statusInner → statusInner × Option UnmarshalError :=
  storeStruct "statusInner" statusInner.fields

/-- Fields of nestedService. -/
def nestedService.fields : List (Field nestedService) :=
  [Field.mk1 (jsonName "Metadata" "json:\"metadata\"")
    (fun s => s.Metadata) (fun s x => { s with Metadata := x }) metadataInner.store,
   Field.mk1 (jsonName "Status" "json:\"status\"")
    (fun s => s.Status) (fun s x => { s with Status := x }) statusInner.store,
   Field.mk1 (jsonName "Spec" "json:\"spec\"")
    (fun s => s.Spec) (fun s x => { s with Spec := x }) specInner.store]

/-- Decoder of nestedService. -/
def nestedService.store : JValue → nestedService → nestedService × Option UnmarshalError :=
  storeStruct "nestedService" nestedService.fields

/-- The call `json.Unmarshal(data, &ns)` on a fresh `ns`: the text is checked
first and nothing is stored when it is not valid JSON; otherwise its value is
stored in `ns` and the first recorded type error, if any, is returned. -/
def nestedService.Unmarshal (data : List Nat) : nestedService × Option UnmarshalError :=
  match parse data with
  | none => ({}, some .invalidJSON)
  | some v => nestedService.store v {}

/-! ## internal/config/endpoints.go -/

/-- Endpoint represents a Cloud Run service deploy in a particular region. -/
structure Endpoint where
  URL : String := ""
  Region : String := ""
  RegionName : String := ""
  deriving DecidableEq, Repr

/-- What `UnmarshalJSON` does once `ns` is filled: return the error, leaving
the receiver alone, or overwrite the receiver with the three fields. -/
def Endpoint.ofNested (r : nestedService × Option UnmarshalError) :
    Except UnmarshalError Endpoint :=
  match r.2 with
  | some err => .error err
  | none =>
    .ok { URL := r.1.Status.Address.Url
          Region := r.1.Metadata.Labels.Location
          RegionName := r.1.Spec.Template.Metadata.Annotations.RegionName }

/-- The method `(*Endpoint).UnmarshalJSON`. `.ok e` stands for a nil error with
the receiver set to `e`; `.error err` for `err` returned and the receiver
untouched. -/
def Endpoint.UnmarshalJSON (data : List Nat) : Except UnmarshalError Endpoint :=
  Endpoint.ofNested (nestedService.Unmarshal data)

/-- The method `(*Endpoint).UnmarshalJSON` on the text of a JSON value `v`, the
way the slice decoder calls it: the text of an array element is valid JSON
and `v` is its value. -/
def Endpoint.unmarshalValue (v : JValue) : Except UnmarshalError Endpoint :=
  Endpoint.ofNested (nestedService.store v {})

/-- A Go `map[string]V`: its entries, one per key. The order of the list has
no meaning. -/
structure GoMap (V : Type) where
  entries : List (String × V)
  deriving DecidableEq, Repr

/-- The empty map (`make(map[string]V)`). -/
def GoMap.empty {V : Type} : GoMap V := { entries := [] }

/-- The assignment `m[k] = v`: any entry under `k` is replaced. -/
def GoMap.set {V : Type} (m : GoMap V) (k : String) (v : V) : GoMap V :=
  { entries := (k, v) :: m.entries.filter (fun e => e.1 != k) }

/-- The lookup `m[k]`, `none` when `k` is not a key of `m`. -/
def GoMap.get? {V : Type} (m : GoMap V) (k : String) : Option V :=
  (m.entries.find? (fun e => e.1 == k)).map (fun e => e.2)

/-- The number of entries, `len(m)`. -/
def GoMap.len {V : Type} (m : GoMap V) : Nat := m.entries.length

/-- The Cloud Run Admin API as the builders use it: the error of
`run.NewService` (if it fails), and the outcome of the list call
`Namespaces.Services.List(parent).Fields(fields).LabelSelector(sel).Do()`,
either an error or the items of the response (`resp.Items`, a
`[]*run.Service`) as `json.MarshalIndent` writes them, read back as JSON
values. -/
structure RunAPI where
  newServiceErr : Option String
  list : String → String → String → Except String (List JValue)

/-- The field mask both builders pass to the list call. -/
def listFields : String :=
  "items(status/address/url,metadata(labels,name),spec(template/metadata/annotations))"

/-- The list call both builders make: the services of the project named by
GOOGLE_CLOUD_PROJECT that carry the label env=prod, then
`json.MarshalIndent(resp.Items, ...)`. -/
def listServices (getenv : String → String) (api : RunAPI) : Except String (List JValue) :=
  api.list ("namespaces/" ++ getenv "GOOGLE_CLOUD_PROJECT") listFields "env=prod"

/-- The function `config.GenerateConfig`. `getenv` is `os.Getenv` (an unset
variable reads as the empty string); `afterError` is what the installed
`encoding/json` does from a failing array element on (see `decodeSlice`);
`.error` is a panic. -/
def GenerateConfig (getenv : String → String) (afterError : List JValue → List Endpoint)
    (api : RunAPI) : Except String (GoMap Endpoint) :=
  match api.newServiceErr with
  | some err => .error err
  | none =>
    match listServices getenv api with
    | .error err => .error err
    | .ok items =>
      let endpoints := decodeSlice Endpoint.unmarshalValue afterError items
      let EndpointsMap : GoMap Endpoint := GoMap.empty
      let globalUrl := getenv "GLOBAL_ENDPOINT"
      let Global : Endpoint :=
        { Region := "global"
          RegionName := "Global External HTTPS Load Balancer"
          URL := getenv "GLOBAL_ENDPOINT" }
      let EndpointsMap :=
        if globalUrl ≠ "" then EndpointsMap.set Global.Region Global else EndpointsMap
      .ok (endpoints.foldl (fun m s => m.set s.Region s) EndpointsMap)

/-! ## cmd/ping/main.go -/

/-- Go struct Service of cmd/ping. -/
structure Service where
  URL : String := ""
  Region : String := ""
  RegionName : String := ""
  deriving DecidableEq, Repr

/-- What `UnmarshalJSON` does once `ns` is filled (see `Endpoint.ofNested`). -/
def Service.ofNested (r : nestedService × Option UnmarshalError) :
    Except UnmarshalError Service :=
  match r.2 with
  | some err => .error err
  | none =>
    .ok { URL := r.1.Status.Address.Url
          Region := r.1.Metadata.Labels.Location
          RegionName := r.1.Spec.Template.Metadata.Annotations.RegionName }

/-- The method `(*Service).UnmarshalJSON`. -/
def Service.UnmarshalJSON (data : List Nat) : Except UnmarshalError Service :=
  Service.ofNested (nestedService.Unmarshal data)

/-- The method `(*Service).UnmarshalJSON` on the text of the JSON value `v`. -/
def Service.unmarshalValue (v : JValue) : Except UnmarshalError Service :=
  Service.ofNested (nestedService.store v {})

/-- The function `generateConfig` of cmd/ping. `metadataGetErr` is the error
of the `http.Get` to the metadata server, if it fails; the response is nil
then and printing it dereferences nil. A failed `run.NewService` leaves a nil
client, whose use panics likewise. The environment is read for the project
only. `afterError` is as in `GenerateConfig`. -/
def generateConfig (getenv : String → String) (afterError : List JValue → List Service)
    (metadataGetErr : Option String) (api : RunAPI) : Except String (GoMap Service) :=
  match metadataGetErr with
  | some _ => .error "invalid memory address or nil pointer dereference"
  | none =>
    match api.newServiceErr with
    | some _ => .error "invalid memory address or nil pointer dereference"
    | none =>
      match listServices getenv api with
      | .error err => .error err
      | .ok items =>
        let services := decodeSlice Service.unmarshalValue afterError items
        let ServicesMap : GoMap Service := GoMap.empty
        let Global : Service :=
          { Region := "global"
            RegionName := "Global External HTTPS Load Balancer"
            URL := "https://global.gcping.com" }
        let ServicesMap := ServicesMap.set Global.Region Global
        .ok (services.foldl (fun m s => m.set s.Region s) ServicesMap)

/-- A `sync.Once`: whether its function has run. -/
structure Once where
  done : Bool := false
  deriving DecidableEq, Repr

/-- The call `once.Do(f)`, with `f` acting on a state `σ`: `f` runs only
when no `Do` of this `Once` has run before. -/
def Once.Do {σ : Type} (o : Once) (f : σ → σ) (s : σ) : Once × σ :=
  if o.done then (o, s) else ({ done := true }, f s)

/-- An HTTP response under construction: header lines in the order they are
added, and the body. -/
structure ResponseWriter where
  header : List (String × String) := []
  body : String := ""
  deriving DecidableEq, Repr

/-- The call `w.Header().Add(k, v)`. -/
def ResponseWriter.Add (w : ResponseWriter) (k v : String) : ResponseWriter :=
  { w with header := w.header ++ [(k, v)] }

/-- The handler registered for "/api/ping", on the package variable `once`. -/
def apiPingHandler (region : String) (once : Once) : Once × ResponseWriter :=
  let w : ResponseWriter := {}
  let w := w.Add "Cache-Control" "no-store"
  let w := w.Add "Access-Control-Allow-Origin" "*"
  let w := w.Add "Strict-Transport-Security" "max-age=3600; includeSubdomains; preload"
  let r := once.Do (fun w => w.Add "X-First-Request" "true") w
  (r.1, { r.2 with body := r.2.body ++ region ++ "\n" })

/-- The handler registered for "/ping", on the same package variable
`once`. -/
def pingHandler (region : String) (once : Once) : Once × ResponseWriter :=
  let w : ResponseWriter := {}
  let w := w.Add "Cache-Control" "no-store"
  let w := w.Add "Access-Control-Allow-Origin" "*"
  let w := w.Add "Strict-Transport-Security" "max-age=3600; includeSubdomains; preload"
  let r := once.Do (fun w => w.Add "X-First-Request" "true") w
  (r.1, { r.2 with body := r.2.body ++ region ++ "\n" })

/-- The two ping routes. -/
inductive PingRoute where
  | apiPing
  | ping
  deriving DecidableEq, Repr

/-- One request served: the route's handler runs on the shared `once`. -/
def servePing (region : String) (once : Once) : PingRoute → Once × ResponseWriter
  | .apiPing => apiPingHandler region once
  | .ping => pingHandler region once

/-- The responses to a sequence of requests handled one after the other,
starting from `once`. -/
def serveAll (region : String) : Once → List PingRoute → List ResponseWriter
  | _, [] => []
  | once, r :: rs => (servePing region once r).2 :: serveAll region (servePing region once r).1 rs

/-- Whether a response carries the header X-First-Request: true. -/
def firstRequestMarked (w : ResponseWriter) : Bool :=
  w.header.contains ("X-First-Request", "true")

/-! ## Notions used to state the properties -/

/-- The entries of a map under one key. -/
def GoMap.entriesAt {V : Type} (m : GoMap V) (k : String) : List (String × V) :=
  m.entries.filter (fun e => e.1 == k)

/-- The last element of a slice whose key is `k`. -/
def lastWith {V : Type} (key : V → String) (k : String) (es : List V) : Option V :=
  (es.filter (fun e => key e == k)).getLast?

/-- The keys of a map. -/
def GoMap.keys {V : Type} (m : GoMap V) : List String := m.entries.map (fun e => e.1)


/-- The record `GenerateConfig` stores under "global" when GLOBAL_ENDPOINT is
set. -/
def globalEndpoint (getenv : String → String) : Endpoint :=
  { URL := getenv "GLOBAL_ENDPOINT"
    Region := "global"
    RegionName := "Global External HTTPS Load Balancer" }

/-- The record `generateConfig` of cmd/ping stores under "global". -/
def globalService : Service :=
  { URL := "https://global.gcping.com"
    Region := "global"
    RegionName := "Global External HTTPS Load Balancer" }

/-! ## Sample inputs -/

/-- A list item the way the API reports a service: the region code under
metadata.labels, the region name under spec.template.metadata.annotations,
the URL under status.address. -/
def sampleItem (url region regionName : String) : JValue :=
  .object
    [("metadata", .object
        [("labels", .object [("cloud.googleapis.com/location", .string region)]),
         ("name", .string "ping")]),
     ("spec", .object
        [("template", .object
          [("metadata", .object
            [("annotations", .object [("region-name", .string regionName)])])])]),
     ("status", .object [("address", .object [("url", .string url)])])]

/-- The behaviour of the versions of `encoding/json` that return at the first
failing element: one zero element is left for it and nothing after it. -/
def stopAtError {V : Type} (zero : V) : List JValue → List V :=
  fun _ => [zero]

/-- An API whose client is created and whose list call returns `items`. -/
def sampleAPI (items : List JValue) : RunAPI :=
  { newServiceErr := none
    list := fun _ _ _ => .ok items }

/-- An environment in which only GLOBAL_ENDPOINT may be set. -/
def sampleEnv (globalEndpoint : String) : String → String :=
  fun name => if name = "GLOBAL_ENDPOINT" then globalEndpoint else ""

/-! ## Notions used to state the decoder properties -/

/-- Whether a JSON value is an object. -/
def JValue.isObject : JValue → Bool
  | .object _ => true
  | _ => false

/-- Key comparison of JSON proper: a member is under `name` when its key is
`name`. -/
def exactKey (name key : String) : Bool := name == key

/-- Key comparison as `encoding/json` selects struct fields: a member is under
`name` when its key equals `name` up to case folding. -/
def foldKey (name key : String) : Bool := foldName name == foldName key

/-- The values an object holds under `name`, in order, for a given key
comparison; no values for anything that is not an object. -/
def JValue.membersAt (eq : String → String → Bool) (name : String) : JValue → List JValue
  | .object ms => (ms.filter (fun m => eq name m.1)).map (fun m => m.2)
  | _ => []

/-- The string at a path of keys below a value, `d` when there is none. When
a key occurs more than once the occurrences are read in order, so the last
string found at the path is the one that counts. -/
def stringAtOr (eq : String → String → Bool) : List String → String → JValue → String
  | [], _, .string s => s
  | [], d, _ => d
  | name :: path, d, v =>
    (v.membersAt eq name).foldl (fun d c => stringAtOr eq path d c) d

/-- The string at a path of keys below a value, and the empty string when the
path is absent. -/
def stringAt (eq : String → String → Bool) (path : List String) (v : JValue) : String :=
  stringAtOr eq path "" v

/-- Whether a JSON value is a string. -/
def JValue.isString : JValue → Bool
  | .string _ => true
  | _ => false

/-- Every value the parent holds under `name` satisfies `ok`. -/
def allAt (eq : String → String → Bool) (name : String) (ok : JValue → Bool)
    (parent : JValue) : Bool :=
  (parent.membersAt eq name).all ok

/-- A leaf under `name` is absent, or a string wherever it is present. -/
def leafOK (eq : String → String → Bool) (name : String) (parent : JValue) : Bool :=
  allAt eq name JValue.isString parent

/-- A nesting level under `name` is absent, or an object that satisfies
`inner` wherever it is present. -/
def nestOK (eq : String → String → Bool) (name : String) (inner : JValue → Bool)
    (parent : JValue) : Bool :=
  allAt eq name (fun x => x.isObject && inner x) parent

/-- The shape of a list item: an object in which each present nesting level
(metadata, metadata.labels, status, status.address, spec, spec.template,
spec.template.metadata, spec.template.metadata.annotations) is an object and
each present leaf (the location label, metadata.name, status.address.url, the
region-name annotation) is a string. -/
def shapeOK (eq : String → String → Bool) (v : JValue) : Bool :=
  v.isObject &&
  nestOK eq "metadata"
    (fun m => nestOK eq "labels" (leafOK eq "cloud.googleapis.com/location") m &&
      leafOK eq "name" m) v &&
  nestOK eq "status" (nestOK eq "address" (leafOK eq "url")) v &&
  nestOK eq "spec"
    (nestOK eq "template"
      (nestOK eq "metadata" (nestOK eq "annotations" (leafOK eq "region-name")))) v

/-- Whether a JSON value is null. -/
def JValue.isNull : JValue → Bool
  | .null => true
  | _ => false

/-- What `json.MarshalIndent` can write for an element of `resp.Items`. The
elements are `*run.Service`: a nil pointer is written as null; in a service
every nesting level the decoder looks at (metadata, its labels, status, its
address, spec, its template, the metadata of the template and its
annotations) is a struct or a map from strings to strings, and every leaf
(the label and annotation values, the name, the url) is a Go string, so each
of them is written as an object, respectively as a string, wherever it is
written at all. -/
def typedItem (v : JValue) : Bool :=
  v.isNull || shapeOK foldKey v

/-- The i-th request of a sequence is the first one for its route. -/
def firstForRoute (reqs : List PingRoute) (i : Nat) : Bool :=
  match reqs.get? i with
  | some r => !(reqs.take i).contains r
  | none => false

/-! ## Facts about Go maps and the insertion loop -/

theorem GoMap.get?_eq_head {V : Type} (m : GoMap V) (k : String) :
    m.get? k = (m.entriesAt k).head?.map (fun e => e.2) := by
  unfold GoMap.get? GoMap.entriesAt
  induction m.entries with
  | nil => rfl
  | cons e es ih =>
    by_cases h : (e.1 == k) = true
    · simp [List.find?_cons, List.filter_cons, h]
    · simp only [Bool.not_eq_true] at h
      simp [List.find?_cons, List.filter_cons, h, ih]

theorem GoMap.entriesAt_set_self {V : Type} (m : GoMap V) (k : String) (v : V) :
    (m.set k v).entriesAt k = [(k, v)] := by
  simp [GoMap.set, GoMap.entriesAt, List.filter_cons, List.filter_filter]

theorem GoMap.entriesAt_set_ne {V : Type} (m : GoMap V) {k j : String} (h : j ≠ k) (v : V) :
    (m.set k v).entriesAt j = m.entriesAt j := by
  have hk : (k == j) = false := by simpa using (Ne.symm h)
  simp only [GoMap.set, GoMap.entriesAt, List.filter_cons, hk, List.filter_filter]
  simp only [Bool.false_eq_true, if_false]
  apply List.filter_congr
  intro e _
  by_cases he : e.1 = j
  · simp [he, h]
  · simp [he]

theorem GoMap.entriesAt_empty {V : Type} (k : String) :
    (GoMap.empty : GoMap V).entriesAt k = [] := rfl

theorem lastWith_append_singleton {V : Type} (key : V → String) (k : String) (es : List V)
    (s : V) :
    lastWith key k (es ++ [s]) = if key s = k then some s else lastWith key k es := by
  unfold lastWith
  by_cases h : key s = k
  · simp [List.filter_append, h, List.getLast?_append]
  · simp [List.filter_append, h]

/-- The insertion loop `for _, s := range es { m[key(s)] = s }`: under each key
the map ends up with exactly the last element of the slice that has this key,
and with what it held before when the slice has none. -/
theorem entriesAt_foldl_set {V : Type} (key : V → String) (k : String) (es : List V)
    (m0 : GoMap V) :
    (es.foldl (fun m s => m.set (key s) s) m0).entriesAt k =
      match lastWith key k es with
      | some e => [(k, e)]
      | none => m0.entriesAt k := by
  induction es using List.reverseRecOn with
  | nil => simp [lastWith]
  | append_singleton es s ih =>
    rw [List.foldl_append, lastWith_append_singleton]
    simp only [List.foldl_cons, List.foldl_nil]
    by_cases h : key s = k
    · subst h
      simp [GoMap.entriesAt_set_self]
    · rw [GoMap.entriesAt_set_ne _ (Ne.symm h), ih]
      simp [h]

theorem get?_foldl_set {V : Type} (key : V → String) (k : String) (es : List V)
    (m0 : GoMap V) :
    (es.foldl (fun m s => m.set (key s) s) m0).get? k =
      match lastWith key k es with
      | some e => some e
      | none => m0.get? k := by
  rw [GoMap.get?_eq_head, entriesAt_foldl_set, GoMap.get?_eq_head]
  cases lastWith key k es <;> rfl

theorem mem_entries_set {V : Type} (m : GoMap V) (k : String) (v : V) (e : String × V)
    (h : e ∈ (m.set k v).entries) : e = (k, v) ∨ e ∈ m.entries := by
  simp only [GoMap.set, List.mem_cons, List.mem_filter] at h
  rcases h with h | h
  · exact Or.inl h
  · exact Or.inr h.1

/-- Every entry of the map after the insertion loop was in the map before, or
is an element of the slice stored under its own key. -/
theorem mem_entries_foldl_set {V : Type} (key : V → String) (es : List V) (m0 : GoMap V)
    (e : String × V) (h : e ∈ (es.foldl (fun m s => m.set (key s) s) m0).entries) :
    e ∈ m0.entries ∨ (e.2 ∈ es ∧ key e.2 = e.1) := by
  induction es generalizing m0 with
  | nil => exact Or.inl h
  | cons s es ih =>
    rcases ih (m0.set (key s) s) h with h1 | h1
    · rcases mem_entries_set _ _ _ _ h1 with h2 | h2
      · subst h2
        exact Or.inr ⟨List.mem_cons_self _ _, rfl⟩
      · exact Or.inl h2
    · exact Or.inr ⟨List.mem_cons_of_mem _ h1.1, h1.2⟩

theorem GoMap.len_set_fresh {V : Type} (m : GoMap V) (k : String) (v : V)
    (h : k ∉ m.keys) : (m.set k v).len = m.len + 1 := by
  have hf : m.entries.filter (fun e => e.1 != k) = m.entries := by
    apply List.filter_eq_self.2
    intro e he
    have : e.1 ≠ k := by
      intro hek
      exact h (by rw [← hek]; exact List.mem_map_of_mem _ he)
    simpa using this
  simp [GoMap.set, GoMap.len, hf]

theorem GoMap.keys_set_subset {V : Type} (m : GoMap V) (k : String) (v : V) (j : String)
    (h : j ∈ (m.set k v).keys) : j = k ∨ j ∈ m.keys := by
  simp only [GoMap.keys, GoMap.set, List.map_cons, List.mem_cons, List.mem_map,
    List.mem_filter] at h
  rcases h with h | ⟨e, ⟨he, _⟩, rfl⟩
  · exact Or.inl h
  · exact Or.inr (List.mem_map_of_mem _ he)

/-- The insertion loop over elements with pairwise distinct keys, none of them
a key of the map yet, adds one entry per element. -/
theorem len_foldl_set_fresh {V : Type} (key : V → String) (es : List V) (m0 : GoMap V)
    (hnodup : (es.map key).Nodup) (hfresh : ∀ e ∈ es, key e ∉ m0.keys) :
    (es.foldl (fun m s => m.set (key s) s) m0).len = m0.len + es.length := by
  induction es generalizing m0 with
  | nil => rfl
  | cons s es ih =>
    simp only [List.map_cons, List.nodup_cons] at hnodup
    simp only [List.foldl_cons]
    rw [ih _ hnodup.2, GoMap.len_set_fresh _ _ _ (hfresh s (List.mem_cons_self _ _))]
    · simp only [List.length_cons]; omega
    · intro e he hmem
      rcases GoMap.keys_set_subset _ _ _ _ hmem with h1 | h1
      · exact hnodup.1 (by rw [← h1]; exact List.mem_map_of_mem _ he)
      · exact hfresh e (List.mem_cons_of_mem _ he) h1

/-! ## Facts about the struct decoder -/

theorem foldl_filter_get {α β γ : Type} (step : β → α → β) (p : α → Bool) (get : β → γ)
    (upd : γ → α → γ)
    (hskip : ∀ b a, p a = false → get (step b a) = get b)
    (hupd : ∀ b a, p a = true → get (step b a) = upd (get b) a)
    (l : List α) :
    ∀ b : β, get (l.foldl step b) = (l.filter p).foldl upd (get b) := by
  induction l with
  | nil => intro b; rfl
  | cons x l ih =>
    intro b
    by_cases hx : p x = true
    · simp only [List.foldl_cons, List.filter_cons, hx, if_true, ih, hupd b x hx]
    · simp only [Bool.not_eq_true] at hx
      simp only [List.foldl_cons, List.filter_cons, hx, Bool.false_eq_true, if_false, ih,
        hskip b x hx]

theorem foldl_leaf {α γ : Type} (leaf : α → γ) (f : α → JValue → α) (g : γ → JValue → γ)
    (xs : List JValue) (h : ∀ x ∈ xs, ∀ acc, leaf (f acc x) = g (leaf acc) x) :
    ∀ a : α, leaf (xs.foldl f a) = xs.foldl g (leaf a) := by
  induction xs with
  | nil => intro a; rfl
  | cons x xs ih =>
    intro a
    simp only [List.foldl_cons]
    rw [ih (fun y hy => h y (List.mem_cons_of_mem _ hy)), h x (List.mem_cons_self _ _)]

theorem find?_of_nodup_map {α κ : Type} [DecidableEq κ] (φ : α → κ) (p : α → Bool)
    (l : List α) (f : α) (hnodup : (l.map φ).Nodup) (hf : f ∈ l)
    (hp : ∀ g ∈ l, p g = true ↔ φ g = φ f) : l.find? p = some f := by
  induction l with
  | nil => simp at hf
  | cons g l ih =>
    simp only [List.map_cons, List.nodup_cons] at hnodup
    by_cases hg : φ g = φ f
    · have hfg : f = g := by
        rcases List.mem_cons.1 hf with h | h
        · exact h
        · exact absurd (hg ▸ List.mem_map_of_mem φ h) hnodup.1
      have : p g = true := (hp g (List.mem_cons_self _ _)).2 hg
      simp [List.find?_cons, this, hfg]
    · have hpg : p g = false := by
        cases h : p g with
        | false => rfl
        | true => exact absurd ((hp g (List.mem_cons_self _ _)).1 h) hg
      have hfl : f ∈ l := by
        rcases List.mem_cons.1 hf with h | h
        · exact absurd (h ▸ rfl) hg
        · exact h
      simp only [List.find?_cons, hpg]
      exact ih hnodup.2 hfl (fun g hg => hp g (List.mem_cons_of_mem _ hg))

/-- With field names that stay distinct under case folding, the field a key
selects is the one whose name equals the key up to case folding. -/
theorem findField_eq_find {σ : Type} (fields : List (Field σ)) (key : String)
    (hnodup : (fields.map (fun f => foldName f.name)).Nodup) :
    findField fields key = fields.find? (fun f => foldKey f.name key) := by
  unfold findField
  cases hx : fields.find? (fun f => f.name == key) with
  | none => rfl
  | some f =>
    have hmem : f ∈ fields := List.mem_of_find?_eq_some hx
    have hname : f.name = key := by simpa using List.find?_some hx
    symm
    apply find?_of_nodup_map (fun f => foldName f.name) _ fields f hnodup hmem
    intro g _
    simp [foldKey, hname]

theorem findField_some {σ : Type} (fields : List (Field σ)) (key : String) (g : Field σ)
    (hnodup : (fields.map (fun f => foldName f.name)).Nodup)
    (h : findField fields key = some g) : g ∈ fields ∧ foldName g.name = foldName key := by
  rw [findField_eq_find fields key hnodup] at h
  exact ⟨List.mem_of_find?_eq_some h, by simpa [foldKey] using List.find?_some h⟩

theorem findField_of_mem {σ : Type} (fields : List (Field σ)) (key : String) (f : Field σ)
    (hnodup : (fields.map (fun f => foldName f.name)).Nodup)
    (hf : f ∈ fields) (h : foldName f.name = foldName key) : findField fields key = some f := by
  rw [findField_eq_find fields key hnodup]
  apply find?_of_nodup_map (fun f => foldName f.name) _ fields f hnodup hf
  intro g _
  simp [foldKey, h]

theorem mem_membersAt (eq : String → String → Bool) (name : String)
    (ms : List (String × JValue)) (m : String × JValue) (hm : m ∈ ms)
    (h : eq name m.1 = true) : m.2 ∈ (JValue.object ms).membersAt eq name := by
  simp only [JValue.membersAt, List.mem_map, List.mem_filter]
  exact ⟨m, ⟨hm, h⟩, rfl⟩

/-- Storing an object in a struct raises no error when, for every field, every
value the object holds under that field's name is stored in the field without
error. -/
theorem storeStruct_no_error {σ : Type} (goType : String) (fields : List (Field σ))
    (hnodup : (fields.map (fun f => foldName f.name)).Nodup)
    (ms : List (String × JValue))
    (h : ∀ g ∈ fields, ∀ x ∈ (JValue.object ms).membersAt foldKey g.name,
      ∀ s, (g.store x s).2 = none)
    (cur : σ) : (storeStruct goType fields (.object ms) cur).2 = none := by
  have key : ∀ (l : List (String × JValue)) (b : σ × Option UnmarshalError),
      (∀ m ∈ l, m ∈ ms) → b.2 = none → (l.foldl (storeMember fields) b).2 = none := by
    intro l
    induction l with
    | nil => intro b _ hb; exact hb
    | cons m l ih =>
      intro b hsub hb
      rw [List.foldl_cons]
      apply ih
      · exact fun m1 h1 => hsub m1 (List.mem_cons_of_mem _ h1)
      · unfold storeMember
        cases hfind : findField fields m.1 with
        | none => exact hb
        | some g =>
          obtain ⟨hg, hname⟩ := findField_some fields m.1 g hnodup hfind
          have hx := mem_membersAt foldKey g.name ms m (hsub m (List.mem_cons_self _ _))
            (by simp [foldKey, hname])
          simp only [hb, saveError]
          exact h g hg m.2 hx b.1
  exact key ms (cur, none) (fun _ hm => hm) rfl

/-- What storing an object in a struct leaves in one of its fields: the values
the object holds under the name of the field, stored in the field one after
the other. -/
theorem storeStruct_get {σ α : Type} (goType : String) (fields : List (Field σ))
    (hnodup : (fields.map (fun f => foldName f.name)).Nodup)
    (n : String) (get : σ → α) (set : σ → α → σ)
    (store : JValue → α → α × Option UnmarshalError)
    (hf : Field.mk1 n get set store ∈ fields)
    (hgs : ∀ s a, get (set s a) = a)
    (hframe : ∀ g ∈ fields, foldName g.name ≠ foldName n → ∀ x s, get (g.store x s).1 = get s)
    (ms : List (String × JValue)) (cur : σ) :
    get (storeStruct goType fields (.object ms) cur).1 =
      ((JValue.object ms).membersAt foldKey n).foldl (fun acc x => (store x acc).1)
        (get cur) := by
  have hstep := foldl_filter_get (storeMember fields)
    (fun m => foldKey n m.1) (fun st => get st.1)
    (fun acc (m : String × JValue) => (store m.2 acc).1)
    (by
      intro b a ha
      show get (storeMember fields b a).1 = get b.1
      unfold storeMember
      cases hfind : findField fields a.1 with
      | none => rfl
      | some g =>
        obtain ⟨hg, hname⟩ := findField_some fields a.1 g hnodup hfind
        have hne : foldName g.name ≠ foldName n := by
          intro h
          simp [foldKey, ← h, hname] at ha
        exact hframe g hg hne a.2 b.1)
    (by
      intro b a ha
      show get (storeMember fields b a).1 = (store a.2 (get b.1)).1
      have hname : foldName (Field.mk1 n get set store).name = foldName a.1 := by
        simpa [foldKey, Field.mk1] using ha
      unfold storeMember
      rw [findField_of_mem fields a.1 _ hnodup hf hname]
      simp only [Field.mk1, hgs])
    ms (cur, none)
  show get (ms.foldl (storeMember fields) (cur, none)).1 = _
  rw [hstep]
  simp only [JValue.membersAt, List.foldl_map]

theorem allAt_mem (eq : String → String → Bool) (name : String) (ok : JValue → Bool)
    (v : JValue) (h : allAt eq name ok v = true) (x : JValue)
    (hx : x ∈ v.membersAt eq name) : ok x = true := by
  unfold allAt at h
  exact List.all_eq_true.1 h x hx

/-- One level of a path: when every value the object holds under the name of
a field decodes to the string at the rest of the path (or keeps what was
there), the decoded struct holds, at that field and below, the string at the
whole path. -/
theorem chain_step {σ α : Type} (goType : String) (fields : List (Field σ))
    (hnodup : (fields.map (fun f => foldName f.name)).Nodup)
    (n : String) (get : σ → α) (set : σ → α → σ)
    (store : JValue → α → α × Option UnmarshalError)
    (hf : Field.mk1 n get set store ∈ fields)
    (hgs : ∀ s a, get (set s a) = a)
    (hframe : ∀ g ∈ fields, foldName g.name ≠ foldName n → ∀ x s, get (g.store x s).1 = get s)
    (ok : JValue → Bool) (leaf : α → String) (path : List String)
    (hV : ∀ x, ok x = true → ∀ acc,
      leaf (store x acc).1 = stringAtOr foldKey path (leaf acc) x)
    (ms : List (String × JValue))
    (h : allAt foldKey n ok (.object ms) = true) (cur : σ) :
    leaf (get (storeStruct goType fields (.object ms) cur).1) =
      stringAtOr foldKey (n :: path) (leaf (get cur)) (.object ms) := by
  rw [storeStruct_get goType fields hnodup n get set store hf hgs hframe ms cur]
  rw [foldl_leaf leaf (fun acc x => (store x acc).1)
    (fun d c => stringAtOr foldKey path d c) _
    (fun x hx acc => hV x (allAt_mem foldKey n ok _ h x hx) acc)]
  simp only [stringAtOr]

theorem isString_store (x : JValue) (h : x.isString = true) (cur : String) :
    storeString x cur = (stringAtOr foldKey [] cur x, none) := by
  cases x <;> simp [JValue.isString] at h
  rfl

theorem isObject_eq (x : JValue) (h : x.isObject = true) : ∃ ms, x = .object ms := by
  cases x <;> simp [JValue.isObject] at h
  exact ⟨_, rfl⟩

theorem foldName_annotations : foldName "annotations" = foldName "Annotations" := by decide

theorem foldKey_annotations : foldKey "annotations" = foldKey "Annotations" := by
  funext k
  simp only [foldKey, foldName_annotations]

/-! ### addressInner -/

theorem addressInner_no_error (x : JValue) (cur : addressInner)
    (h : (x.isObject && leafOK foldKey "url" x) = true) :
    (addressInner.store x cur).2 = none := by
  simp only [Bool.and_eq_true] at h
  obtain ⟨ms, rfl⟩ := isObject_eq x h.1
  apply storeStruct_no_error _ _ (by decide)
  intro g hg y hy s
  simp only [addressInner.fields, List.mem_singleton] at hg
  subst hg
  have := allAt_mem foldKey "url" _ _ h.2 y hy
  simp only [Field.mk1, isString_store y this]

theorem addressInner_value (x : JValue)
    (h : (x.isObject && leafOK foldKey "url" x) = true) (cur : addressInner) :
    (addressInner.store x cur).1.Url = stringAtOr foldKey ["url"] cur.Url x := by
  simp only [Bool.and_eq_true] at h
  obtain ⟨ms, rfl⟩ := isObject_eq x h.1
  exact chain_step "addressInner" addressInner.fields (by decide) "url"
    (fun s => s.Url) (fun s x => { s with Url := x }) storeString
    (List.mem_singleton_self _) (fun _ _ => rfl)
    (by
      intro g hg hne
      simp only [addressInner.fields, List.mem_singleton] at hg
      subst hg
      exact absurd rfl hne)
    JValue.isString id []
    (fun y hy acc => by rw [isString_store y hy]; rfl) ms h.2 cur

/-! ### labelsInner -/

theorem labelsInner_no_error (x : JValue) (cur : labelsInner)
    (h : (x.isObject && leafOK foldKey "cloud.googleapis.com/location" x) = true) :
    (labelsInner.store x cur).2 = none := by
  simp only [Bool.and_eq_true] at h
  obtain ⟨ms, rfl⟩ := isObject_eq x h.1
  apply storeStruct_no_error _ _ (by decide)
  intro g hg y hy s
  simp only [labelsInner.fields, List.mem_singleton] at hg
  subst hg
  have := allAt_mem foldKey "cloud.googleapis.com/location" _ _ h.2 y hy
  simp only [Field.mk1, isString_store y this]

theorem labelsInner_value (x : JValue)
    (h : (x.isObject && leafOK foldKey "cloud.googleapis.com/location" x) = true) (cur : labelsInner) :
    (labelsInner.store x cur).1.Location = stringAtOr foldKey ["cloud.googleapis.com/location"] cur.Location x := by
  simp only [Bool.and_eq_true] at h
  obtain ⟨ms, rfl⟩ := isObject_eq x h.1
  exact chain_step "labelsInner" labelsInner.fields (by decide) "cloud.googleapis.com/location"
    (fun s => s.Location) (fun s x => { s with Location := x }) storeString
    (List.mem_singleton_self _) (fun _ _ => rfl)
    (by
      intro g hg hne
      simp only [labelsInner.fields, List.mem_singleton] at hg
      subst hg
      exact absurd rfl hne)
    JValue.isString id []
    (fun y hy acc => by rw [isString_store y hy]; rfl) ms h.2 cur

/-! ### annotationsInner -/

theorem annotationsInner_no_error (x : JValue) (cur : annotationsInner)
    (h : (x.isObject && leafOK foldKey "region-name" x) = true) :
    (annotationsInner.store x cur).2 = none := by
  simp only [Bool.and_eq_true] at h
  obtain ⟨ms, rfl⟩ := isObject_eq x h.1
  apply storeStruct_no_error _ _ (by decide)
  intro g hg y hy s
  simp only [annotationsInner.fields, List.mem_singleton] at hg
  subst hg
  have := allAt_mem foldKey "region-name" _ _ h.2 y hy
  simp only [Field.mk1, isString_store y this]

theorem annotationsInner_value (x : JValue)
    (h : (x.isObject && leafOK foldKey "region-name" x) = true) (cur : annotationsInner) :
    (annotationsInner.store x cur).1.RegionName = stringAtOr foldKey ["region-name"] cur.RegionName x := by
  simp only [Bool.and_eq_true] at h
  obtain ⟨ms, rfl⟩ := isObject_eq x h.1
  exact chain_step "annotationsInner" annotationsInner.fields (by decide) "region-name"
    (fun s => s.RegionName) (fun s x => { s with RegionName := x }) storeString
    (List.mem_singleton_self _) (fun _ _ => rfl)
    (by
      intro g hg hne
      simp only [annotationsInner.fields, List.mem_singleton] at hg
      subst hg
      exact absurd rfl hne)
    JValue.isString id []
    (fun y hy acc => by rw [isString_store y hy]; rfl) ms h.2 cur

/-! ### statusInner -/

theorem statusInner_no_error (x : JValue) (cur : statusInner)
    (h : (x.isObject && nestOK foldKey "address" (leafOK foldKey "url") x) = true) :
    (statusInner.store x cur).2 = none := by
  simp only [Bool.and_eq_true] at h
  obtain ⟨ms, rfl⟩ := isObject_eq x h.1
  apply storeStruct_no_error _ _ (by decide)
  intro g hg y hy s
  simp only [statusInner.fields, List.mem_singleton] at hg
  subst hg
  have := allAt_mem foldKey "address" _ _ h.2 y hy
  exact addressInner_no_error y _ this

theorem statusInner_value (x : JValue)
    (h : (x.isObject && nestOK foldKey "address" (leafOK foldKey "url") x) = true) (cur : statusInner) :
    (statusInner.store x cur).1.Address.Url =
      stringAtOr foldKey ["address", "url"] cur.Address.Url x := by
  simp only [Bool.and_eq_true] at h
  obtain ⟨ms, rfl⟩ := isObject_eq x h.1
  exact chain_step "statusInner" statusInner.fields (by decide) "address"
    (fun s => s.Address) (fun s x => { s with Address := x }) addressInner.store
    (List.mem_singleton_self _) (fun _ _ => rfl)
    (by
      intro g hg hne
      simp only [statusInner.fields, List.mem_singleton] at hg
      subst hg
      exact absurd rfl hne)
    (fun x => x.isObject && (leafOK foldKey "url") x) (fun a => a.Url) ["url"]
    (fun y hy acc => addressInner_value y hy acc) ms h.2 cur

/-! ### templateMetadataInner -/

theorem membersAt_annotations (v : JValue) :
    v.membersAt foldKey "Annotations" = v.membersAt foldKey "annotations" := by
  cases v <;> simp only [JValue.membersAt, foldKey_annotations]

theorem templateMetadataInner_no_error (x : JValue) (cur : templateMetadataInner)
    (h : (x.isObject && nestOK foldKey "annotations" (leafOK foldKey "region-name") x) = true) :
    (templateMetadataInner.store x cur).2 = none := by
  simp only [Bool.and_eq_true] at h
  obtain ⟨ms, rfl⟩ := isObject_eq x h.1
  apply storeStruct_no_error _ _ (by decide)
  intro g hg y hy s
  simp only [templateMetadataInner.fields, List.mem_singleton] at hg
  subst hg
  have hy1 : y ∈ (JValue.object ms).membersAt foldKey "Annotations" := hy
  rw [membersAt_annotations] at hy1
  have := allAt_mem foldKey "annotations" _ _ h.2 y hy1
  exact annotationsInner_no_error y _ this

theorem templateMetadataInner_value (x : JValue)
    (h : (x.isObject && nestOK foldKey "annotations" (leafOK foldKey "region-name") x) = true)
    (cur : templateMetadataInner) :
    (templateMetadataInner.store x cur).1.Annotations.RegionName =
      stringAtOr foldKey ["annotations", "region-name"] cur.Annotations.RegionName x := by
  simp only [Bool.and_eq_true] at h
  obtain ⟨ms, rfl⟩ := isObject_eq x h.1
  have h2 : allAt foldKey "Annotations"
      (fun x => x.isObject && leafOK foldKey "region-name" x) (.object ms) = true := by
    have := h.2
    simp only [nestOK, allAt] at this ⊢
    rw [membersAt_annotations]
    exact this
  have := chain_step "templateMetadataInner" templateMetadataInner.fields (by decide)
    "Annotations"
    (fun s => s.Annotations) (fun s x => { s with Annotations := x }) annotationsInner.store
    (List.mem_singleton_self _) (fun _ _ => rfl)
    (by
      intro g hg hne
      simp only [templateMetadataInner.fields, List.mem_singleton] at hg
      subst hg
      exact absurd rfl hne)
    (fun x => x.isObject && leafOK foldKey "region-name" x) (fun a => a.RegionName)
    ["region-name"]
    (fun y hy acc => annotationsInner_value y hy acc) ms h2 cur
  have hpath : stringAtOr foldKey ["Annotations", "region-name"] cur.Annotations.RegionName
        (JValue.object ms) =
      stringAtOr foldKey ["annotations", "region-name"] cur.Annotations.RegionName
        (JValue.object ms) := by
    simp only [stringAtOr, membersAt_annotations]
  exact this.trans hpath

/-! ### templateInner -/

theorem templateInner_no_error (x : JValue) (cur : templateInner)
    (h : (x.isObject && nestOK foldKey "metadata" (nestOK foldKey "annotations" (leafOK foldKey "region-name")) x) = true) :
    (templateInner.store x cur).2 = none := by
  simp only [Bool.and_eq_true] at h
  obtain ⟨ms, rfl⟩ := isObject_eq x h.1
  apply storeStruct_no_error _ _ (by decide)
  intro g hg y hy s
  simp only [templateInner.fields, List.mem_singleton] at hg
  subst hg
  have := allAt_mem foldKey "metadata" _ _ h.2 y hy
  exact templateMetadataInner_no_error y _ this

theorem templateInner_value (x : JValue)
    (h : (x.isObject && nestOK foldKey "metadata" (nestOK foldKey "annotations" (leafOK foldKey "region-name")) x) = true) (cur : templateInner) :
    (templateInner.store x cur).1.Metadata.Annotations.RegionName =
      stringAtOr foldKey ["metadata", "annotations", "region-name"] cur.Metadata.Annotations.RegionName x := by
  simp only [Bool.and_eq_true] at h
  obtain ⟨ms, rfl⟩ := isObject_eq x h.1
  exact chain_step "templateInner" templateInner.fields (by decide) "metadata"
    (fun s => s.Metadata) (fun s x => { s with Metadata := x }) templateMetadataInner.store
    (List.mem_singleton_self _) (fun _ _ => rfl)
    (by
      intro g hg hne
      simp only [templateInner.fields, List.mem_singleton] at hg
      subst hg
      exact absurd rfl hne)
    (fun x => x.isObject && (nestOK foldKey "annotations" (leafOK foldKey "region-name")) x) (fun a => a.Annotations.RegionName) ["annotations", "region-name"]
    (fun y hy acc => templateMetadataInner_value y hy acc) ms h.2 cur

/-! ### specInner -/

theorem specInner_no_error (x : JValue) (cur : specInner)
    (h : (x.isObject && nestOK foldKey "template" (nestOK foldKey "metadata" (nestOK foldKey "annotations" (leafOK foldKey "region-name"))) x) = true) :
    (specInner.store x cur).2 = none := by
  simp only [Bool.and_eq_true] at h
  obtain ⟨ms, rfl⟩ := isObject_eq x h.1
  apply storeStruct_no_error _ _ (by decide)
  intro g hg y hy s
  simp only [specInner.fields, List.mem_singleton] at hg
  subst hg
  have := allAt_mem foldKey "template" _ _ h.2 y hy
  exact templateInner_no_error y _ this

theorem specInner_value (x : JValue)
    (h : (x.isObject && nestOK foldKey "template" (nestOK foldKey "metadata" (nestOK foldKey "annotations" (leafOK foldKey "region-name"))) x) = true) (cur : specInner) :
    (specInner.store x cur).1.Template.Metadata.Annotations.RegionName =
      stringAtOr foldKey ["template", "metadata", "annotations", "region-name"] cur.Template.Metadata.Annotations.RegionName x := by
  simp only [Bool.and_eq_true] at h
  obtain ⟨ms, rfl⟩ := isObject_eq x h.1
  exact chain_step "specInner" specInner.fields (by decide) "template"
    (fun s => s.Template) (fun s x => { s with Template := x }) templateInner.store
    (List.mem_singleton_self _) (fun _ _ => rfl)
    (by
      intro g hg hne
      simp only [specInner.fields, List.mem_singleton] at hg
      subst hg
      exact absurd rfl hne)
    (fun x => x.isObject && (nestOK foldKey "metadata" (nestOK foldKey "annotations" (leafOK foldKey "region-name"))) x) (fun a => a.Metadata.Annotations.RegionName) ["metadata", "annotations", "region-name"]
    (fun y hy acc => templateInner_value y hy acc) ms h.2 cur

/-! ### metadataInner -/

theorem metadataInner_no_error (x : JValue) (cur : metadataInner)
    (h : (x.isObject &&
      (fun m => nestOK foldKey "labels" (leafOK foldKey "cloud.googleapis.com/location") m &&
        leafOK foldKey "name" m) x) = true) :
    (metadataInner.store x cur).2 = none := by
  simp only [Bool.and_eq_true] at h
  obtain ⟨ms, rfl⟩ := isObject_eq x h.1
  apply storeStruct_no_error _ _ (by decide)
  intro g hg y hy s
  simp only [metadataInner.fields, List.mem_cons, List.mem_singleton, List.not_mem_nil,
    or_false] at hg
  rcases hg with hg | hg
  · subst hg
    have := allAt_mem foldKey "labels" _ _ h.2.1 y hy
    exact labelsInner_no_error y _ this
  · subst hg
    have := allAt_mem foldKey "name" _ _ h.2.2 y hy
    simp only [Field.mk1, isString_store y this]

theorem metadataInner_value (x : JValue)
    (h : (x.isObject &&
      (fun m => nestOK foldKey "labels" (leafOK foldKey "cloud.googleapis.com/location") m &&
        leafOK foldKey "name" m) x) = true) (cur : metadataInner) :
    (metadataInner.store x cur).1.Labels.Location =
      stringAtOr foldKey ["labels", "cloud.googleapis.com/location"] cur.Labels.Location x := by
  simp only [Bool.and_eq_true] at h
  obtain ⟨ms, rfl⟩ := isObject_eq x h.1
  exact chain_step "metadataInner" metadataInner.fields (by decide) "labels"
    (fun s => s.Labels) (fun s x => { s with Labels := x }) labelsInner.store
    (List.mem_cons_self _ _) (fun _ _ => rfl)
    (by
      intro g hg hne
      simp only [metadataInner.fields, List.mem_cons, List.mem_singleton, List.not_mem_nil,
        or_false] at hg
      rcases hg with hg | hg
      · subst hg
        exact absurd rfl hne
      · subst hg
        intro _ _
        rfl)
    (fun x => x.isObject && leafOK foldKey "cloud.googleapis.com/location" x)
    (fun a => a.Location) ["cloud.googleapis.com/location"]
    (fun y hy acc => labelsInner_value y hy acc) ms h.2.1 cur

/-! ### nestedService -/

theorem nestedService_no_error (x : JValue) (cur : nestedService)
    (h : shapeOK foldKey x = true) : (nestedService.store x cur).2 = none := by
  simp only [shapeOK, Bool.and_eq_true] at h
  obtain ⟨ms, rfl⟩ := isObject_eq x h.1.1.1
  apply storeStruct_no_error _ _ (by decide)
  intro g hg y hy s
  simp only [nestedService.fields, List.mem_cons, List.mem_singleton, List.not_mem_nil,
    or_false] at hg
  rcases hg with hg | hg | hg
  · subst hg
    exact metadataInner_no_error y _ (allAt_mem foldKey "metadata" _ _ h.1.1.2 y hy)
  · subst hg
    exact statusInner_no_error y _ (allAt_mem foldKey "status" _ _ h.1.2 y hy)
  · subst hg
    exact specInner_no_error y _ (allAt_mem foldKey "spec" _ _ h.2 y hy)

theorem nestedService_url (x : JValue) (h : shapeOK foldKey x = true) :
    (nestedService.store x {}).1.Status.Address.Url =
      stringAt foldKey ["status", "address", "url"] x := by
  simp only [shapeOK, Bool.and_eq_true] at h
  obtain ⟨ms, rfl⟩ := isObject_eq x h.1.1.1
  exact chain_step "nestedService" nestedService.fields (by decide) "status"
    (fun s => s.Status) (fun s x => { s with Status := x }) statusInner.store
    (List.mem_cons_of_mem _ (List.mem_cons_self _ _)) (fun _ _ => rfl)
    (by
      intro g hg hne
      simp only [nestedService.fields, List.mem_cons, List.mem_singleton, List.not_mem_nil,
        or_false] at hg
      rcases hg with hg | hg | hg
      · subst hg; intro _ _; rfl
      · subst hg; exact absurd rfl hne
      · subst hg; intro _ _; rfl)
    (fun x => x.isObject && nestOK foldKey "address" (leafOK foldKey "url") x)
    (fun a => a.Address.Url) ["address", "url"]
    (fun y hy acc => statusInner_value y hy acc) ms h.1.2 {}

theorem nestedService_region (x : JValue) (h : shapeOK foldKey x = true) :
    (nestedService.store x {}).1.Metadata.Labels.Location =
      stringAt foldKey ["metadata", "labels", "cloud.googleapis.com/location"] x := by
  simp only [shapeOK, Bool.and_eq_true] at h
  obtain ⟨ms, rfl⟩ := isObject_eq x h.1.1.1
  exact chain_step "nestedService" nestedService.fields (by decide) "metadata"
    (fun s => s.Metadata) (fun s x => { s with Metadata := x }) metadataInner.store
    (List.mem_cons_self _ _) (fun _ _ => rfl)
    (by
      intro g hg hne
      simp only [nestedService.fields, List.mem_cons, List.mem_singleton, List.not_mem_nil,
        or_false] at hg
      rcases hg with hg | hg | hg
      · subst hg; exact absurd rfl hne
      · subst hg; intro _ _; rfl
      · subst hg; intro _ _; rfl)
    (fun x => x.isObject &&
      (fun m => nestOK foldKey "labels" (leafOK foldKey "cloud.googleapis.com/location") m &&
        leafOK foldKey "name" m) x)
    (fun a => a.Labels.Location) ["labels", "cloud.googleapis.com/location"]
    (fun y hy acc => metadataInner_value y hy acc) ms h.1.1.2 {}

theorem nestedService_regionName (x : JValue) (h : shapeOK foldKey x = true) :
    (nestedService.store x {}).1.Spec.Template.Metadata.Annotations.RegionName =
      stringAt foldKey ["spec", "template", "metadata", "annotations", "region-name"] x := by
  simp only [shapeOK, Bool.and_eq_true] at h
  obtain ⟨ms, rfl⟩ := isObject_eq x h.1.1.1
  exact chain_step "nestedService" nestedService.fields (by decide) "spec"
    (fun s => s.Spec) (fun s x => { s with Spec := x }) specInner.store
    (List.mem_cons_of_mem _ (List.mem_cons_of_mem _ (List.mem_cons_self _ _))) (fun _ _ => rfl)
    (by
      intro g hg hne
      simp only [nestedService.fields, List.mem_cons, List.mem_singleton, List.not_mem_nil,
        or_false] at hg
      rcases hg with hg | hg | hg
      · subst hg; intro _ _; rfl
      · subst hg; intro _ _; rfl
      · subst hg; exact absurd rfl hne)
    (fun x => x.isObject && nestOK foldKey "template"
      (nestOK foldKey "metadata"
        (nestOK foldKey "annotations" (leafOK foldKey "region-name"))) x)
    (fun a => a.Template.Metadata.Annotations.RegionName)
    ["template", "metadata", "annotations", "region-name"]
    (fun y hy acc => specInner_value y hy acc) ms h.2 {}

/-- C1 (as stated, refuted): JSON keys are case-sensitive, `encoding/json` is
not. The first text is an object with no member named metadata, status or
spec, so every path of the claim is absent and the claim promises an empty
record; its member Status is matched to the status field all the same and,
being a number, makes decoding fail. The second text has no member named
status either (the string at status.address.url is absent, hence empty), yet
decoding sets URL from the member STATUS. -/
theorem exact_path_counterexample :
    (∃ v, parse (ascii "\x7b\"Status\":5\x7d") = some v ∧ shapeOK exactKey v = true) ∧
    Endpoint.UnmarshalJSON (ascii "\x7b\"Status\":5\x7d") =
      .error (.type "number" "statusInner") ∧
    Service.UnmarshalJSON (ascii "\x7b\"Status\":5\x7d") =
      .error (.type "number" "statusInner") ∧
    (∃ v, parse (ascii "\x7b\"STATUS\":\x7b\"address\":\x7b\"url\":\"https://x.example.com\"\x7d\x7d\x7d") = some v ∧
      shapeOK exactKey v = true ∧ stringAt exactKey ["status", "address", "url"] v = "") ∧
    Endpoint.UnmarshalJSON (ascii "\x7b\"STATUS\":\x7b\"address\":\x7b\"url\":\"https://x.example.com\"\x7d\x7d\x7d") =
      .ok { URL := "https://x.example.com", Region := "", RegionName := "" } ∧
    Service.UnmarshalJSON (ascii "\x7b\"STATUS\":\x7b\"address\":\x7b\"url\":\"https://x.example.com\"\x7d\x7d\x7d") =
      .ok { URL := "https://x.example.com", Region := "", RegionName := "" } :=
  ⟨⟨.object [("Status", .number [0x35])], rfl, by decide⟩, rfl, rfl,
   ⟨.object [("STATUS", .object [("address", .object [("url",
      .string "https://x.example.com")])])], rfl, by decide, by decide⟩, rfl, rfl⟩

/-- C1 (amended): keys are compared up to case, the way `encoding/json` matches
them to struct fields, and when a key is repeated its occurrences are read in
order, the last string found at a path being the one that counts. For every
input that is a JSON object in which, under that comparison, each present
nesting level (metadata, metadata.labels, status, status.address, spec,
spec.template, spec.template.metadata, spec.template.metadata.annotations) is
an object and each present leaf is a string, `UnmarshalJSON` (of Endpoint and
of Service) succeeds and sets URL to the string at status.address.url, Region
to the string at metadata.labels["cloud.googleapis.com/location"] and
RegionName to the string at
spec.template.metadata.annotations["region-name"], each being the empty
string when its path is absent. -/
theorem UnmarshalJSON_decodes_paths (data : List Nat) (v : JValue)
    (hparse : parse data = some v) (hshape : shapeOK foldKey v = true) :
    Endpoint.UnmarshalJSON data =
      .ok { URL := stringAt foldKey ["status", "address", "url"] v
            Region := stringAt foldKey
              ["metadata", "labels", "cloud.googleapis.com/location"] v
            RegionName := stringAt foldKey
              ["spec", "template", "metadata", "annotations", "region-name"] v } ∧
    Service.UnmarshalJSON data =
      .ok { URL := stringAt foldKey ["status", "address", "url"] v
            Region := stringAt foldKey
              ["metadata", "labels", "cloud.googleapis.com/location"] v
            RegionName := stringAt foldKey
              ["spec", "template", "metadata", "annotations", "region-name"] v } := by
  have hE := nestedService_no_error v {} hshape
  have h1 := nestedService_url v hshape
  have h2 := nestedService_region v hshape
  have h3 := nestedService_regionName v hshape
  simp only [Endpoint.UnmarshalJSON, Service.UnmarshalJSON, nestedService.Unmarshal, hparse,
    Endpoint.ofNested, Service.ofNested, hE, h1, h2, h3, and_self]

set_option maxRecDepth 100000 in
/-- An instance: a minimal item without the annotations block decodes without
error to an empty RegionName and the URL and Region it carries. -/
theorem UnmarshalJSON_decodes_paths_witness :
    Endpoint.UnmarshalJSON (ascii "\x7b\"metadata\":\x7b\"labels\":\x7b\"cloud.googleapis.com/location\":\"us-central1\"\x7d,\"name\":\"ping\"\x7d,\"spec\":\x7b\"template\":\x7b\"metadata\":\x7b\x7d\x7d\x7d,\"status\":\x7b\"address\":\x7b\"url\":\"https://us-central1.example.com\"\x7d\x7d\x7d") =
      .ok { URL := "https://us-central1.example.com", Region := "us-central1",
            RegionName := "" } ∧
    Service.UnmarshalJSON (ascii "\x7b\"metadata\":\x7b\"labels\":\x7b\"cloud.googleapis.com/location\":\"us-central1\"\x7d,\"name\":\"ping\"\x7d,\"spec\":\x7b\"template\":\x7b\"metadata\":\x7b\x7d\x7d\x7d,\"status\":\x7b\"address\":\x7b\"url\":\"https://us-central1.example.com\"\x7d\x7d\x7d") =
      .ok { URL := "https://us-central1.example.com", Region := "us-central1",
            RegionName := "" } :=
  UnmarshalJSON_decodes_paths (ascii "\x7b\"metadata\":\x7b\"labels\":\x7b\"cloud.googleapis.com/location\":\"us-central1\"\x7d,\"name\":\"ping\"\x7d,\"spec\":\x7b\"template\":\x7b\"metadata\":\x7b\x7d\x7d\x7d,\"status\":\x7b\"address\":\x7b\"url\":\"https://us-central1.example.com\"\x7d\x7d\x7d")
    (.object
      [("metadata", .object
          [("labels", .object
            [("cloud.googleapis.com/location", .string "us-central1")]),
           ("name", .string "ping")]),
       ("spec", .object [("template", .object [("metadata", .object [])])]),
       ("status", .object
          [("address", .object [("url", .string "https://us-central1.example.com")])])])
    rfl (by decide)

/-- On a text that is valid JSON, `UnmarshalJSON` is `unmarshalValue` on the
value of the text. -/
theorem UnmarshalJSON_eq_unmarshalValue (data : List Nat) (v : JValue)
    (h : parse data = some v) :
    Endpoint.UnmarshalJSON data = Endpoint.unmarshalValue v ∧
    Service.UnmarshalJSON data = Service.unmarshalValue v := by
  simp only [Endpoint.UnmarshalJSON, Service.UnmarshalJSON, nestedService.Unmarshal, h,
    Endpoint.unmarshalValue, Service.unmarshalValue, and_self]

theorem serveAll_done (region : String) (reqs : List PingRoute) :
    (serveAll region { done := true } reqs).map firstRequestMarked =
      List.replicate reqs.length false := by
  induction reqs with
  | nil => rfl
  | cons r rs ih =>
    have h1 : (servePing region { done := true } r).1 = { done := true } := by
      cases r <;> rfl
    have h2 : firstRequestMarked (servePing region { done := true } r).2 = false := by
      cases r <;> rfl
    simp only [serveAll, List.map_cons, h1, h2, ih, List.length_cons, List.replicate_succ]

/-- C9 (as stated, refuted): a request to /api/ping followed by a request to
/ping. The second request is the first one handled by the /ping handler, yet
its response does not carry X-First-Request: true, because both handlers
share the one `once`. -/
theorem first_request_counterexample :
    firstForRoute [.apiPing, .ping] 1 = true ∧
    (serveAll "pong" {} [.apiPing, .ping]).map firstRequestMarked = [true, false] :=
  ⟨by decide, by decide⟩

/-- C9 (amended): the two ping handlers share a single set-once flag, so for
every sequence of requests to /api/ping and /ping handled from a fresh
process, the very first request of the sequence, whichever of the two
handlers takes it, receives the header X-First-Request: true, and no later
request to either handler receives it. -/
theorem first_request_marked_once (region : String) (r : PingRoute) (rs : List PingRoute) :
    (serveAll region {} (r :: rs)).map firstRequestMarked =
      true :: List.replicate rs.length false := by
  have h1 : (servePing region {} r).1 = { done := true } := by
    cases r <;> rfl
  have h2 : firstRequestMarked (servePing region {} r).2 = true := by
    cases r <;> rfl
  simp only [serveAll, List.map_cons, h1, h2, serveAll_done]

/-- C2 (as stated, refuted): the text null is well-formed JSON and not an
object, and `UnmarshalJSON` accepts it, leaving an empty record: a JSON null
has no effect on a struct target and is no error. -/
theorem null_counterexample :
    (∃ v, parse (ascii "null") = some v ∧ v.isObject = false) ∧
    Endpoint.UnmarshalJSON (ascii "null") = .ok { URL := "", Region := "", RegionName := "" } ∧
    Service.UnmarshalJSON (ascii "null") = .ok { URL := "", Region := "", RegionName := "" } :=
  ⟨⟨.null, rfl, rfl⟩, rfl, rfl⟩

/-- C2 (amended): `UnmarshalJSON` (of Endpoint and of Service) returns a decode
error for every byte sequence that is not well-formed JSON, and for every
well-formed JSON string, number, boolean or array; a JSON null is accepted
and decodes to the empty record. (The function is total: it never
panics.) -/
theorem UnmarshalJSON_non_object (data : List Nat) :
    match parse data with
    | none =>
      Endpoint.UnmarshalJSON data = .error .invalidJSON ∧
      Service.UnmarshalJSON data = .error .invalidJSON
    | some (.object _) => True
    | some .null =>
      Endpoint.UnmarshalJSON data = .ok { URL := "", Region := "", RegionName := "" } ∧
      Service.UnmarshalJSON data = .ok { URL := "", Region := "", RegionName := "" }
    | some (.bool _) =>
      Endpoint.UnmarshalJSON data = .error (.type "bool" "nestedService") ∧
      Service.UnmarshalJSON data = .error (.type "bool" "nestedService")
    | some (.number _) =>
      Endpoint.UnmarshalJSON data = .error (.type "number" "nestedService") ∧
      Service.UnmarshalJSON data = .error (.type "number" "nestedService")
    | some (.string _) =>
      Endpoint.UnmarshalJSON data = .error (.type "string" "nestedService") ∧
      Service.UnmarshalJSON data = .error (.type "string" "nestedService")
    | some (.array _) =>
      Endpoint.UnmarshalJSON data = .error (.type "array" "nestedService") ∧
      Service.UnmarshalJSON data = .error (.type "array" "nestedService") := by
  cases h : parse data with
  | none =>
    simp only [Endpoint.UnmarshalJSON, Service.UnmarshalJSON, nestedService.Unmarshal, h]
    exact ⟨rfl, rfl⟩
  | some v =>
    cases v <;>
      simp only [Endpoint.UnmarshalJSON, Service.UnmarshalJSON, nestedService.Unmarshal, h] <;>
      exact ⟨rfl, rfl⟩

/-! ## Facts about slice decoding -/

/-- When every element decodes, the slice holds the decoded records in
order. -/
theorem decodeSlice_all_ok {V : Type} (unmarshal : JValue → Except UnmarshalError V)
    (afterError : List JValue → List V) (items : List JValue) (recs : List V)
    (h : items.map unmarshal = recs.map Except.ok) :
    decodeSlice unmarshal afterError items = recs := by
  induction items generalizing recs with
  | nil =>
    cases recs with
    | nil => rfl
    | cons r rs => simp at h
  | cons it items ih =>
    cases recs with
    | nil => simp at h
    | cons r rs =>
      simp only [List.map_cons, List.cons.injEq] at h
      simp only [decodeSlice, h.1, ih rs h.2]

theorem lastWith_mem {V : Type} (key : V → String) (k : String) (es : List V) (e : V)
    (h : lastWith key k es = some e) : e ∈ es ∧ key e = k := by
  unfold lastWith at h
  have hm : e ∈ es.filter (fun e => key e == k) := List.mem_of_getLast?_eq_some h
  simpa using hm

theorem lastWith_eq_none {V : Type} (key : V → String) (k : String) (es : List V)
    (h : ∀ e ∈ es, key e ≠ k) : lastWith key k es = none := by
  unfold lastWith
  have : es.filter (fun e => key e == k) = [] := by
    apply List.filter_eq_nil_iff.2
    intro e he
    simpa using h e he
  rw [this]; rfl

theorem lastWith_isSome {V : Type} (key : V → String) (k : String) (es : List V) (e : V)
    (he : e ∈ es) (hk : key e = k) : ∃ r, lastWith key k es = some r := by
  cases h : lastWith key k es with
  | some r => exact ⟨r, rfl⟩
  | none =>
    exfalso
    unfold lastWith at h
    rw [List.getLast?_eq_none_iff] at h
    have hm : e ∈ es.filter (fun e => key e == k) := by simp [he, hk]
    rw [h] at hm
    exact List.not_mem_nil _ hm

theorem lastWith_append {V : Type} (key : V → String) (k : String) (es fs : List V)
    (h : ∀ e ∈ fs, key e ≠ k) : lastWith key k (es ++ fs) = lastWith key k es := by
  unfold lastWith
  have : fs.filter (fun e => key e == k) = [] := by
    apply List.filter_eq_nil_iff.2
    intro e he
    simpa using h e he
  rw [List.filter_append, this, List.append_nil]

/-- Among elements with pairwise distinct keys, the last element under the key
of `e` is `e`. -/
theorem lastWith_of_nodup {V : Type} (key : V → String) (es : List V) (e : V)
    (hnodup : (es.map key).Nodup) (he : e ∈ es) : lastWith key (key e) es = some e := by
  obtain ⟨r, hr⟩ := lastWith_isSome key (key e) es e he rfl
  have hm := lastWith_mem key (key e) es r hr
  have : r = e := List.inj_on_of_nodup_map hnodup hm.1 he hm.2
  rw [hr, this]

theorem map_ok_length {V : Type} (unmarshal : JValue → Except UnmarshalError V)
    (items : List JValue) (recs : List V) (h : items.map unmarshal = recs.map Except.ok) :
    items.length = recs.length := by
  have := congrArg List.length h
  simpa using this

/-- C3: for a list response of N items that all decode, to pairwise distinct
region codes that are neither empty nor "global", `config.GenerateConfig`
returns a directory that keys every decoded record by its region code and has
exactly N entries when GLOBAL_ENDPOINT is unset or empty, and exactly N+1
entries when GLOBAL_ENDPOINT is a non-empty URL u, the entry under "global"
then being the record with URL u, Region "global" and RegionName
"Global External HTTPS Load Balancer". -/
theorem GenerateConfig_entry_count (getenv : String → String)
    (afterE : List JValue → List Endpoint) (api : RunAPI)
    (items : List JValue) (recs : List Endpoint)
    (hnew : api.newServiceErr = none)
    (hlist : listServices getenv api = .ok items)
    (hdec : items.map Endpoint.unmarshalValue = recs.map Except.ok)
    (hdistinct : (recs.map (fun r => r.Region)).Nodup)
    (hcodes : ∀ r ∈ recs, r.Region ≠ "" ∧ r.Region ≠ "global") :
    ∃ dir, GenerateConfig getenv afterE api = .ok dir ∧
      (∀ r ∈ recs, dir.get? r.Region = some r) ∧
      (getenv "GLOBAL_ENDPOINT" = "" → dir.len = items.length) ∧
      (getenv "GLOBAL_ENDPOINT" ≠ "" →
        dir.len = items.length + 1 ∧
        dir.get? "global" =
          some { URL := getenv "GLOBAL_ENDPOINT"
                 Region := "global"
                 RegionName := "Global External HTTPS Load Balancer" }) := by
  have hlen := map_ok_length _ items recs hdec
  have hslice := decodeSlice_all_ok Endpoint.unmarshalValue afterE items recs hdec
  refine ⟨_, by simp only [GenerateConfig, hnew, hlist, hslice]; rfl, ?_, ?_, ?_⟩
  · intro r hr
    rw [get?_foldl_set (fun s : Endpoint => s.Region), lastWith_of_nodup _ recs r hdistinct hr]
  · intro hg
    rw [if_neg (by simpa using hg), len_foldl_set_fresh (fun s : Endpoint => s.Region) recs _
      hdistinct (by intro e _; simp [GoMap.keys, GoMap.empty]), hlen]
    simp [GoMap.len, GoMap.empty]
  · intro hg
    rw [if_pos hg]
    constructor
    · rw [len_foldl_set_fresh (fun s : Endpoint => s.Region) recs _ hdistinct, hlen]
      · simp [GoMap.len, GoMap.set, GoMap.empty]; omega
      · intro e he
        simpa [GoMap.keys, GoMap.set, GoMap.empty] using (hcodes e he).2
    · rw [get?_foldl_set (fun s : Endpoint => s.Region),
        lastWith_eq_none _ _ recs (fun e he => (hcodes e he).2)]
      simp [GoMap.get?, GoMap.set, GoMap.empty]

/-- An instance: two items, for us-central1 and asia-east1, with GLOBAL_ENDPOINT
set. -/
theorem GenerateConfig_entry_count_witness :
    ∃ dir, GenerateConfig (sampleEnv "https://global.example.com") (stopAtError {})
        (sampleAPI [sampleItem "https://us-central1.example.com" "us-central1" "Iowa",
          sampleItem "https://asia-east1.example.com" "asia-east1" "Taiwan"]) = .ok dir ∧
      (∀ r ∈ [({ URL := "https://us-central1.example.com", Region := "us-central1",
                 RegionName := "Iowa" } : Endpoint),
              { URL := "https://asia-east1.example.com", Region := "asia-east1",
                RegionName := "Taiwan" }], dir.get? r.Region = some r) ∧
      (sampleEnv "https://global.example.com" "GLOBAL_ENDPOINT" = "" → dir.len = 2) ∧
      (sampleEnv "https://global.example.com" "GLOBAL_ENDPOINT" ≠ "" →
        dir.len = 2 + 1 ∧
        dir.get? "global" =
          some { URL := sampleEnv "https://global.example.com" "GLOBAL_ENDPOINT"
                 Region := "global"
                 RegionName := "Global External HTTPS Load Balancer" }) :=
  GenerateConfig_entry_count (sampleEnv "https://global.example.com") (stopAtError {})
    (sampleAPI [sampleItem "https://us-central1.example.com" "us-central1" "Iowa",
      sampleItem "https://asia-east1.example.com" "asia-east1" "Taiwan"])
    [sampleItem "https://us-central1.example.com" "us-central1" "Iowa",
      sampleItem "https://asia-east1.example.com" "asia-east1" "Taiwan"]
    [{ URL := "https://us-central1.example.com", Region := "us-central1", RegionName := "Iowa" },
     { URL := "https://asia-east1.example.com", Region := "asia-east1", RegionName := "Taiwan" }]
    rfl rfl rfl (by decide) (by decide)

theorem decodeSlice_append_ok {V : Type} (unmarshal : JValue → Except UnmarshalError V)
    (afterError : List JValue → List V) (pre : List JValue) (recs : List V)
    (rest : List JValue)
    (h : pre.map unmarshal = recs.map Except.ok) :
    decodeSlice unmarshal afterError (pre ++ rest) =
      recs ++ decodeSlice unmarshal afterError rest := by
  induction pre generalizing recs with
  | nil =>
    cases recs with
    | nil => rfl
    | cons r rs => simp at h
  | cons it items ih =>
    cases recs with
    | nil => simp at h
    | cons r rs =>
      simp only [List.map_cons, List.cons.injEq] at h
      rw [List.cons_append]
      simp only [decodeSlice, h.1]
      rw [ih rs h.2, List.cons_append]

theorem GenerateConfig_eq (getenv : String → String) (afterE : List JValue → List Endpoint)
    (api : RunAPI) (items : List JValue)
    (hnew : api.newServiceErr = none) (hlist : listServices getenv api = .ok items) :
    GenerateConfig getenv afterE api =
      .ok ((decodeSlice Endpoint.unmarshalValue afterE items).foldl
        (fun m s => m.set s.Region s)
        (if getenv "GLOBAL_ENDPOINT" ≠ "" then
          (GoMap.empty : GoMap Endpoint).set "global" (globalEndpoint getenv)
        else GoMap.empty)) := by
  simp only [GenerateConfig, hnew, hlist]
  rfl

theorem generateConfig_eq (getenv : String → String) (afterS : List JValue → List Service)
    (metadataGetErr : Option String)
    (api : RunAPI) (items : List JValue) (hmeta : metadataGetErr = none)
    (hnew : api.newServiceErr = none) (hlist : listServices getenv api = .ok items) :
    generateConfig getenv afterS metadataGetErr api =
      .ok ((decodeSlice Service.unmarshalValue afterS items).foldl
        (fun m s => m.set s.Region s)
        ((GoMap.empty : GoMap Service).set "global" globalService)) := by
  simp only [generateConfig, hmeta, hnew, hlist]
  rfl

/-- C4 (as stated, refuted): with GLOBAL_ENDPOINT set to
https://global.example.com and one returned item whose region code is
"global", both builders keep the item's record under "global", not the
synthetic global record. -/
theorem global_entry_counterexample :
    sampleEnv "https://global.example.com" "GLOBAL_ENDPOINT" ≠ "" ∧
    Endpoint.unmarshalValue (sampleItem "https://item.example.com" "global" "Item") =
      .ok { URL := "https://item.example.com", Region := "global", RegionName := "Item" } ∧
    (∃ dir, GenerateConfig (sampleEnv "https://global.example.com") (stopAtError {})
        (sampleAPI [sampleItem "https://item.example.com" "global" "Item"]) = .ok dir ∧
      dir.get? "global" =
        some { URL := "https://item.example.com", Region := "global", RegionName := "Item" } ∧
      dir.get? "global" ≠ some (globalEndpoint (sampleEnv "https://global.example.com"))) ∧
    (∃ dir, generateConfig (sampleEnv "https://global.example.com") (stopAtError {}) none
        (sampleAPI [sampleItem "https://item.example.com" "global" "Item"]) = .ok dir ∧
      dir.get? "global" =
        some { URL := "https://item.example.com", Region := "global", RegionName := "Item" } ∧
      dir.get? "global" ≠ some globalService) :=
  ⟨by decide, rfl, ⟨_, rfl, by decide, by decide⟩, ⟨_, rfl, by decide, by decide⟩⟩

/-- C4 (amended): in both builders the items are inserted after the global
record, so when some item decoded by the build has the region code "global",
the entry under "global" is the record of the last such item, whether or not
a global endpoint is configured: the item-derived entry overwrites the
synthetic global record. -/
theorem global_entry_is_last_item (getenv : String → String)
    (afterE : List JValue → List Endpoint) (afterS : List JValue → List Service) (api : RunAPI)
    (items : List JValue) (r : Endpoint) (s : Service)
    (hnew : api.newServiceErr = none)
    (hlist : listServices getenv api = .ok items)
    (hr : r ∈ decodeSlice Endpoint.unmarshalValue afterE items) (hrg : r.Region = "global")
    (hs : s ∈ decodeSlice Service.unmarshalValue afterS items) (hsg : s.Region = "global") :
    (∃ dir last, GenerateConfig getenv afterE api = .ok dir ∧
      lastWith (fun e : Endpoint => e.Region) "global"
        (decodeSlice Endpoint.unmarshalValue afterE items) = some last ∧
      dir.get? "global" = some last) ∧
    (∃ dir last, generateConfig getenv afterS none api = .ok dir ∧
      lastWith (fun e : Service => e.Region) "global"
        (decodeSlice Service.unmarshalValue afterS items) = some last ∧
      dir.get? "global" = some last) := by
  constructor
  · obtain ⟨last, hlast⟩ := lastWith_isSome (fun e : Endpoint => e.Region) "global" _ r hr hrg
    refine ⟨_, last, GenerateConfig_eq getenv afterE api items hnew hlist, hlast, ?_⟩
    rw [get?_foldl_set (fun e : Endpoint => e.Region), hlast]
  · obtain ⟨last, hlast⟩ := lastWith_isSome (fun e : Service => e.Region) "global" _ s hs hsg
    refine ⟨_, last, generateConfig_eq getenv afterS none api items rfl hnew hlist, hlast, ?_⟩
    rw [get?_foldl_set (fun e : Service => e.Region), hlast]

/-- An instance: GLOBAL_ENDPOINT set and one item whose region code is "global". -/
theorem global_entry_is_last_item_witness :
    (∃ dir last, GenerateConfig (sampleEnv "https://global.example.com") (stopAtError {})
        (sampleAPI [sampleItem "https://item.example.com" "global" "Item"]) = .ok dir ∧
      lastWith (fun e : Endpoint => e.Region) "global"
        (decodeSlice Endpoint.unmarshalValue (stopAtError {})
          [sampleItem "https://item.example.com" "global" "Item"]) = some last ∧
      dir.get? "global" = some last) ∧
    (∃ dir last, generateConfig (sampleEnv "https://global.example.com") (stopAtError {}) none
        (sampleAPI [sampleItem "https://item.example.com" "global" "Item"]) = .ok dir ∧
      lastWith (fun e : Service => e.Region) "global"
        (decodeSlice Service.unmarshalValue (stopAtError {})
          [sampleItem "https://item.example.com" "global" "Item"]) = some last ∧
      dir.get? "global" = some last) :=
  global_entry_is_last_item (sampleEnv "https://global.example.com") (stopAtError {}) (stopAtError {})
    (sampleAPI [sampleItem "https://item.example.com" "global" "Item"])
    [sampleItem "https://item.example.com" "global" "Item"]
    { URL := "https://item.example.com", Region := "global", RegionName := "Item" }
    { URL := "https://item.example.com", Region := "global", RegionName := "Item" }
    rfl rfl (by decide) rfl (by decide) rfl

/-- C6 (as stated, refuted): a list item without the location label decodes
without error to a record with an empty Region, and both builders store it
under the empty-string key. -/
theorem empty_region_counterexample :
    Endpoint.unmarshalValue (.object []) = .ok { URL := "", Region := "", RegionName := "" } ∧
    (∃ dir, GenerateConfig (sampleEnv "") (stopAtError {}) (sampleAPI [.object []]) = .ok dir ∧
      dir.get? "" = some { URL := "", Region := "", RegionName := "" }) ∧
    (∃ dir, generateConfig (sampleEnv "") (stopAtError {}) none (sampleAPI [.object []]) = .ok dir ∧
      dir.get? "" = some { URL := "", Region := "", RegionName := "" }) :=
  ⟨rfl, ⟨_, rfl, by decide⟩, ⟨_, rfl, by decide⟩⟩

/-- C6 (amended): when every item of the list response decodes to a record
with a non-empty region code, every record in the directory built by either
builder has a non-empty Region and no entry is stored under the empty-string
key. (The builders themselves never check the region code.) -/
theorem directory_regions_nonempty (getenv : String → String)
    (afterE : List JValue → List Endpoint) (afterS : List JValue → List Service) (api : RunAPI)
    (items : List JValue) (recs : List Endpoint) (svcs : List Service)
    (hnew : api.newServiceErr = none)
    (hlist : listServices getenv api = .ok items)
    (hdec : items.map Endpoint.unmarshalValue = recs.map Except.ok)
    (hcodes : ∀ r ∈ recs, r.Region ≠ "")
    (hdecS : items.map Service.unmarshalValue = svcs.map Except.ok)
    (hcodesS : ∀ r ∈ svcs, r.Region ≠ "") :
    (∃ dir, GenerateConfig getenv afterE api = .ok dir ∧
      ∀ e ∈ dir.entries, e.2.Region ≠ "" ∧ e.1 ≠ "") ∧
    (∃ dir, generateConfig getenv afterS none api = .ok dir ∧
      ∀ e ∈ dir.entries, e.2.Region ≠ "" ∧ e.1 ≠ "") := by
  constructor
  · refine ⟨_, GenerateConfig_eq getenv afterE api items hnew hlist, ?_⟩
    intro e he
    rw [decodeSlice_all_ok _ _ items recs hdec] at he
    rcases mem_entries_foldl_set (fun s : Endpoint => s.Region) _ _ e he with h | ⟨h1, h2⟩
    · by_cases hg : getenv "GLOBAL_ENDPOINT" ≠ ""
      · rw [if_pos hg] at h
        simp only [GoMap.set, GoMap.empty, List.filter_nil, List.mem_singleton] at h
        subst h
        exact ⟨by simp [globalEndpoint], by simp⟩
      · rw [if_neg hg] at h
        simp [GoMap.empty] at h
    · have := hcodes e.2 h1
      exact ⟨this, by rw [← h2]; exact this⟩
  · refine ⟨_, generateConfig_eq getenv afterS none api items rfl hnew hlist, ?_⟩
    intro e he
    rw [decodeSlice_all_ok _ _ items svcs hdecS] at he
    rcases mem_entries_foldl_set (fun s : Service => s.Region) _ _ e he with h | ⟨h1, h2⟩
    · simp only [GoMap.set, GoMap.empty, List.filter_nil, List.mem_singleton] at h
      subst h
      exact ⟨by simp [globalService], by simp⟩
    · have := hcodesS e.2 h1
      exact ⟨this, by rw [← h2]; exact this⟩

/-- An instance: one item for us-central1, with GLOBAL_ENDPOINT set. -/
theorem directory_regions_nonempty_witness :
    (∃ dir, GenerateConfig (sampleEnv "https://global.example.com") (stopAtError {})
        (sampleAPI [sampleItem "https://us-central1.example.com" "us-central1" "Iowa"]) =
          .ok dir ∧
      ∀ e ∈ dir.entries, e.2.Region ≠ "" ∧ e.1 ≠ "") ∧
    (∃ dir, generateConfig (sampleEnv "https://global.example.com") (stopAtError {}) none
        (sampleAPI [sampleItem "https://us-central1.example.com" "us-central1" "Iowa"]) =
          .ok dir ∧
      ∀ e ∈ dir.entries, e.2.Region ≠ "" ∧ e.1 ≠ "") :=
  directory_regions_nonempty (sampleEnv "https://global.example.com") (stopAtError {}) (stopAtError {})
    (sampleAPI [sampleItem "https://us-central1.example.com" "us-central1" "Iowa"])
    [sampleItem "https://us-central1.example.com" "us-central1" "Iowa"]
    [{ URL := "https://us-central1.example.com", Region := "us-central1", RegionName := "Iowa" }]
    [{ URL := "https://us-central1.example.com", Region := "us-central1", RegionName := "Iowa" }]
    rfl rfl rfl (by decide) rfl (by decide)

/-- C8 (the code at the failing inputs): `generateConfig` of cmd/ping never
reads GLOBAL_ENDPOINT. With the variable unset and an empty list response the
directory still has an entry keyed "global"; with the variable set to
https://global.example.com the URL of that entry is still
https://global.gcping.com. -/
theorem generateConfig_ignores_global_endpoint :
    (∃ dir, generateConfig (sampleEnv "") (stopAtError {}) none (sampleAPI []) = .ok dir ∧
      dir.get? "global" =
        some { URL := "https://global.gcping.com", Region := "global",
               RegionName := "Global External HTTPS Load Balancer" }) ∧
    (∃ dir, generateConfig (sampleEnv "https://global.example.com") (stopAtError {}) none (sampleAPI []) =
        .ok dir ∧
      sampleEnv "https://global.example.com" "GLOBAL_ENDPOINT" = "https://global.example.com" ∧
      dir.get? "global" =
        some { URL := "https://global.gcping.com", Region := "global",
               RegionName := "Global External HTTPS Load Balancer" }) :=
  ⟨⟨_, rfl, by decide⟩, ⟨_, rfl, by decide, by decide⟩⟩


/-! ## List responses

The items of a list response are typed values written out by
`json.MarshalIndent`; such items always decode. -/

theorem typedItem_store (v : JValue) (h : typedItem v = true) :
    (nestedService.store v {}).2 = none := by
  simp only [typedItem, Bool.or_eq_true] at h
  rcases h with h | h
  · cases v <;> simp [JValue.isNull] at h
    rfl
  · exact nestedService_no_error v {} h

/-- An item of a list response never fails to decode. -/
theorem typedItem_decodes (v : JValue) (h : typedItem v = true) :
    (∃ r, Endpoint.unmarshalValue v = .ok r) ∧ (∃ r, Service.unmarshalValue v = .ok r) := by
  have h0 := typedItem_store v h
  constructor
  · refine ⟨{ URL := (nestedService.store v {}).1.Status.Address.Url
              Region := (nestedService.store v {}).1.Metadata.Labels.Location
              RegionName :=
                (nestedService.store v {}).1.Spec.Template.Metadata.Annotations.RegionName }, ?_⟩
    simp only [Endpoint.unmarshalValue, Endpoint.ofNested, h0]
  · refine ⟨{ URL := (nestedService.store v {}).1.Status.Address.Url
              Region := (nestedService.store v {}).1.Metadata.Labels.Location
              RegionName :=
                (nestedService.store v {}).1.Spec.Template.Metadata.Annotations.RegionName }, ?_⟩
    simp only [Service.unmarshalValue, Service.ofNested, h0]

theorem map_ok_of_forall {V : Type} (f : JValue → Except UnmarshalError V)
    (items : List JValue) (h : ∀ it ∈ items, ∃ r, f it = .ok r) :
    ∃ recs : List V, items.map f = recs.map Except.ok := by
  induction items with
  | nil => exact ⟨[], rfl⟩
  | cons it items ih =>
    obtain ⟨r, hr⟩ := h it (List.mem_cons_self _ _)
    obtain ⟨recs, hrecs⟩ := ih (fun x hx => h x (List.mem_cons_of_mem _ hx))
    exact ⟨r :: recs, by simp only [List.map_cons, hr, hrecs]⟩

theorem mem_items_of_map_ok {V : Type} (f : JValue → Except UnmarshalError V)
    (items : List JValue) (recs : List V) (h : items.map f = recs.map Except.ok)
    (r : V) (hr : r ∈ recs) : ∃ it ∈ items, f it = .ok r := by
  have hm : Except.ok r ∈ items.map f := by
    rw [h]; exact List.mem_map_of_mem _ hr
  obtain ⟨it, hit, hf⟩ := List.mem_map.1 hm
  exact ⟨it, hit, hf⟩

theorem mem_recs_of_map_ok {V : Type} (f : JValue → Except UnmarshalError V)
    (items : List JValue) (recs : List V) (h : items.map f = recs.map Except.ok)
    (it : JValue) (hit : it ∈ items) (r : V) (hr : f it = .ok r) : r ∈ recs := by
  have hm : Except.ok r ∈ recs.map (Except.ok : V → Except UnmarshalError V) := by
    rw [← h, ← hr]; exact List.mem_map_of_mem _ hit
  obtain ⟨r1, hr1, he⟩ := List.mem_map.1 hm
  cases he
  exact hr1

/-- In the directory `config.GenerateConfig` builds from a list response, an
item behind which no item has the same region code is the one entry under
its code. -/
theorem GenerateConfig_last_item (getenv : String → String)
    (afterE : List JValue → List Endpoint) (api : RunAPI)
    (pre post : List JValue) (it : JValue) (r : Endpoint)
    (hnew : api.newServiceErr = none)
    (hlist : listServices getenv api = .ok (pre ++ it :: post))
    (htyped : ∀ x ∈ pre ++ it :: post, typedItem x = true)
    (hit : Endpoint.unmarshalValue it = .ok r)
    (hafter : ∀ x ∈ post, ∀ r2, Endpoint.unmarshalValue x = .ok r2 → r2.Region ≠ r.Region) :
    ∃ dir, GenerateConfig getenv afterE api = .ok dir ∧
      dir.entriesAt r.Region = [(r.Region, r)] ∧ dir.get? r.Region = some r := by
  obtain ⟨recsPre, hpre⟩ := map_ok_of_forall Endpoint.unmarshalValue pre
    (fun x hx => (typedItem_decodes x (htyped x (List.mem_append_left _ hx))).1)
  obtain ⟨recsPost, hpost⟩ := map_ok_of_forall Endpoint.unmarshalValue post
    (fun x hx => (typedItem_decodes x
      (htyped x (List.mem_append_right _ (List.mem_cons_of_mem _ hx)))).1)
  have hslice : decodeSlice Endpoint.unmarshalValue afterE (pre ++ it :: post) =
      (recsPre ++ [r]) ++ recsPost := by
    rw [decodeSlice_append_ok _ _ _ recsPre _ hpre]
    simp only [decodeSlice, hit]
    rw [decodeSlice_all_ok _ _ post recsPost hpost]
    simp only [List.append_assoc, List.singleton_append]
  have hlast : lastWith (fun e : Endpoint => e.Region) r.Region
      (decodeSlice Endpoint.unmarshalValue afterE (pre ++ it :: post)) = some r := by
    rw [hslice, lastWith_append _ _ _ _ (fun e he => by
      obtain ⟨x, hx, hxe⟩ := mem_items_of_map_ok _ post recsPost hpost e he
      exact hafter x hx e hxe), lastWith_append_singleton]
    simp
  refine ⟨_, GenerateConfig_eq getenv afterE api _ hnew hlist, ?_, ?_⟩
  · rw [entriesAt_foldl_set (fun e : Endpoint => e.Region), hlast]
  · rw [get?_foldl_set (fun e : Endpoint => e.Region), hlast]

/-- C5 (as stated, refuted): three items of the list response have the region
code us-east1. The first two decode to the same region code, and the one
entry under us-east1 holds the URL and RegionName of neither of them: it
holds those of the third item, not those of the later of the two. -/
theorem duplicate_region_counterexample :
    typedItem (sampleItem "https://first.example.com" "us-east1" "First") = true ∧
    typedItem (sampleItem "https://second.example.com" "us-east1" "Second") = true ∧
    typedItem (sampleItem "https://third.example.com" "us-east1" "Third") = true ∧
    Endpoint.unmarshalValue (sampleItem "https://first.example.com" "us-east1" "First") =
      .ok { URL := "https://first.example.com", Region := "us-east1", RegionName := "First" } ∧
    Endpoint.unmarshalValue (sampleItem "https://second.example.com" "us-east1" "Second") =
      .ok { URL := "https://second.example.com", Region := "us-east1",
            RegionName := "Second" } ∧
    ∃ dir, GenerateConfig (sampleEnv "") (stopAtError {})
        (sampleAPI [sampleItem "https://first.example.com" "us-east1" "First",
          sampleItem "https://second.example.com" "us-east1" "Second",
          sampleItem "https://third.example.com" "us-east1" "Third"]) = .ok dir ∧
      dir.get? "us-east1" =
        some { URL := "https://third.example.com", Region := "us-east1",
               RegionName := "Third" } ∧
      dir.get? "us-east1" ≠
        some { URL := "https://second.example.com", Region := "us-east1",
               RegionName := "Second" } :=
  ⟨by decide, by decide, by decide, rfl, rfl, _, rfl, by decide, by decide⟩

/-- C5 (amended): if two items of the list response decode to the same region
code and no item after the later of the two decodes to that code, the
directory built by `config.GenerateConfig` has exactly one entry for that
code, and it holds the record (URL and RegionName) of the later item: the
last item with a region code wins. -/
theorem duplicate_region_last_wins (getenv : String → String)
    (afterE : List JValue → List Endpoint) (api : RunAPI)
    (pre mid post : List JValue) (x y : JValue) (rx ry : Endpoint)
    (hnew : api.newServiceErr = none)
    (hlist : listServices getenv api = .ok (pre ++ x :: (mid ++ y :: post)))
    (htyped : ∀ it ∈ pre ++ x :: (mid ++ y :: post), typedItem it = true)
    (_hx : Endpoint.unmarshalValue x = .ok rx)
    (hy : Endpoint.unmarshalValue y = .ok ry)
    (hsame : rx.Region = ry.Region)
    (hafter : ∀ it ∈ post, ∀ r, Endpoint.unmarshalValue it = .ok r → r.Region ≠ ry.Region) :
    ∃ dir, GenerateConfig getenv afterE api = .ok dir ∧
      dir.entriesAt rx.Region = [(rx.Region, ry)] ∧
      dir.get? rx.Region = some ry := by
  have hitems : pre ++ x :: (mid ++ y :: post) = (pre ++ x :: mid) ++ y :: post := by simp
  rw [hsame]
  exact GenerateConfig_last_item getenv afterE api (pre ++ x :: mid) post y ry hnew
    (by rw [← hitems]; exact hlist) (by rw [← hitems]; exact htyped) hy hafter

/-- An instance: two items for us-east1 with an item for us-west1 between them
and an item for asia-east1 at the end. -/
theorem duplicate_region_last_wins_witness :
    ∃ dir, GenerateConfig (sampleEnv "") (stopAtError {})
        (sampleAPI ([] ++ sampleItem "https://first.example.com" "us-east1" "First" ::
          ([sampleItem "https://mid.example.com" "us-west1" "Mid"] ++
            sampleItem "https://later.example.com" "us-east1" "Later" ::
              [sampleItem "https://asia.example.com" "asia-east1" "Taiwan"]))) = .ok dir ∧
      dir.entriesAt "us-east1" =
        [("us-east1", { URL := "https://later.example.com", Region := "us-east1",
                        RegionName := "Later" })] ∧
      dir.get? "us-east1" =
        some { URL := "https://later.example.com", Region := "us-east1",
               RegionName := "Later" } :=
  duplicate_region_last_wins (sampleEnv "") (stopAtError {})
    (sampleAPI ([] ++ sampleItem "https://first.example.com" "us-east1" "First" ::
      ([sampleItem "https://mid.example.com" "us-west1" "Mid"] ++
        sampleItem "https://later.example.com" "us-east1" "Later" ::
          [sampleItem "https://asia.example.com" "asia-east1" "Taiwan"])))
    [] [sampleItem "https://mid.example.com" "us-west1" "Mid"]
    [sampleItem "https://asia.example.com" "asia-east1" "Taiwan"]
    (sampleItem "https://first.example.com" "us-east1" "First")
    (sampleItem "https://later.example.com" "us-east1" "Later")
    { URL := "https://first.example.com", Region := "us-east1", RegionName := "First" }
    { URL := "https://later.example.com", Region := "us-east1", RegionName := "Later" }
    rfl rfl (by decide) rfl rfl rfl (by
      intro it hit r hr
      simp only [List.mem_singleton] at hit
      subst hit
      have : r = { URL := "https://asia.example.com", Region := "asia-east1",
                   RegionName := "Taiwan" } := by
        have h2 : Endpoint.unmarshalValue
            (sampleItem "https://asia.example.com" "asia-east1" "Taiwan") =
            .ok { URL := "https://asia.example.com", Region := "asia-east1",
                  RegionName := "Taiwan" } := rfl
        rw [h2] at hr
        cases hr
        rfl
      rw [this]
      decide)

/-- C7: the items of a list response are typed values written out by
`json.MarshalIndent`, and none of them fails to decode. For every list
response `config.GenerateConfig` completes without a fatal error and every
item of the response appears in the directory under its region code: there is
an entry under the code, and it is the item's own record when no item after
it has the same code. -/
theorem build_keeps_every_item (getenv : String → String)
    (afterE : List JValue → List Endpoint) (api : RunAPI) (items : List JValue)
    (hnew : api.newServiceErr = none)
    (hlist : listServices getenv api = .ok items)
    (htyped : ∀ it ∈ items, typedItem it = true) :
    ∃ dir, GenerateConfig getenv afterE api = .ok dir ∧
      (∀ it ∈ items, ∃ r, Endpoint.unmarshalValue it = .ok r) ∧
      (∀ it ∈ items, ∀ r, Endpoint.unmarshalValue it = .ok r →
        ∃ r1, dir.get? r.Region = some r1 ∧ r1.Region = r.Region) ∧
      (∀ pre post it r, items = pre ++ it :: post → Endpoint.unmarshalValue it = .ok r →
        (∀ x ∈ post, ∀ r2, Endpoint.unmarshalValue x = .ok r2 → r2.Region ≠ r.Region) →
        dir.get? r.Region = some r) := by
  obtain ⟨recs, hrecs⟩ := map_ok_of_forall Endpoint.unmarshalValue items
    (fun x hx => (typedItem_decodes x (htyped x hx)).1)
  have hslice := decodeSlice_all_ok Endpoint.unmarshalValue afterE items recs hrecs
  refine ⟨_, GenerateConfig_eq getenv afterE api items hnew hlist,
    fun it hit => (typedItem_decodes it (htyped it hit)).1, ?_, ?_⟩
  · intro it hit r hr
    have hmem := mem_recs_of_map_ok _ items recs hrecs it hit r hr
    obtain ⟨r1, hr1⟩ := lastWith_isSome (fun e : Endpoint => e.Region) r.Region recs r hmem rfl
    refine ⟨r1, ?_, (lastWith_mem _ _ _ _ hr1).2⟩
    rw [get?_foldl_set (fun e : Endpoint => e.Region), hslice, hr1]
  · intro pre post it r hitems hr hafter
    subst hitems
    obtain ⟨dir, hdir, _, hget⟩ := GenerateConfig_last_item getenv afterE api pre post it r
      hnew hlist htyped hr hafter
    rw [GenerateConfig_eq getenv afterE api _ hnew hlist] at hdir
    cases hdir
    exact hget

/-- An instance: items for us-central1 and asia-east1 and a nil service
between them. -/
theorem build_keeps_every_item_witness :
    ∃ dir, GenerateConfig (sampleEnv "") (stopAtError {})
        (sampleAPI [sampleItem "https://us.example.com" "us-central1" "Iowa", .null,
          sampleItem "https://asia.example.com" "asia-east1" "Taiwan"]) = .ok dir ∧
      (∀ it ∈ [sampleItem "https://us.example.com" "us-central1" "Iowa", .null,
          sampleItem "https://asia.example.com" "asia-east1" "Taiwan"],
        ∃ r, Endpoint.unmarshalValue it = .ok r) ∧
      (∀ it ∈ [sampleItem "https://us.example.com" "us-central1" "Iowa", .null,
          sampleItem "https://asia.example.com" "asia-east1" "Taiwan"],
        ∀ r, Endpoint.unmarshalValue it = .ok r →
          ∃ r1, dir.get? r.Region = some r1 ∧ r1.Region = r.Region) ∧
      (∀ pre post it r,
        [sampleItem "https://us.example.com" "us-central1" "Iowa", .null,
          sampleItem "https://asia.example.com" "asia-east1" "Taiwan"] = pre ++ it :: post →
        Endpoint.unmarshalValue it = .ok r →
        (∀ x ∈ post, ∀ r2, Endpoint.unmarshalValue x = .ok r2 → r2.Region ≠ r.Region) →
        dir.get? r.Region = some r) :=
  build_keeps_every_item (sampleEnv "") (stopAtError {})
    (sampleAPI [sampleItem "https://us.example.com" "us-central1" "Iowa", .null,
      sampleItem "https://asia.example.com" "asia-east1" "Taiwan"])
    [sampleItem "https://us.example.com" "us-central1" "Iowa", .null,
      sampleItem "https://asia.example.com" "asia-east1" "Taiwan"]
    rfl rfl (by decide)

/-- C10: every entry (k, r) of the directory built by either builder from a
list response satisfies r.Region = k, and r is either the synthetic global
record or the decoded record of some item of the list response. -/
theorem directory_entries_from_items (getenv : String → String)
    (afterE : List JValue → List Endpoint) (afterS : List JValue → List Service)
    (api : RunAPI) (items : List JValue)
    (hnew : api.newServiceErr = none)
    (hlist : listServices getenv api = .ok items)
    (htyped : ∀ it ∈ items, typedItem it = true) :
    (∃ dir, GenerateConfig getenv afterE api = .ok dir ∧
      ∀ e ∈ dir.entries, e.2.Region = e.1 ∧
        (e.2 = globalEndpoint getenv ∨
         ∃ it ∈ items, Endpoint.unmarshalValue it = .ok e.2)) ∧
    (∃ dir, generateConfig getenv afterS none api = .ok dir ∧
      ∀ e ∈ dir.entries, e.2.Region = e.1 ∧
        (e.2 = globalService ∨
         ∃ it ∈ items, Service.unmarshalValue it = .ok e.2)) := by
  obtain ⟨recs, hrecs⟩ := map_ok_of_forall Endpoint.unmarshalValue items
    (fun x hx => (typedItem_decodes x (htyped x hx)).1)
  obtain ⟨svcs, hsvcs⟩ := map_ok_of_forall Service.unmarshalValue items
    (fun x hx => (typedItem_decodes x (htyped x hx)).2)
  constructor
  · refine ⟨_, GenerateConfig_eq getenv afterE api items hnew hlist, ?_⟩
    intro e he
    rw [decodeSlice_all_ok _ _ items recs hrecs] at he
    rcases mem_entries_foldl_set (fun s : Endpoint => s.Region) _ _ e he with h | ⟨h1, h2⟩
    · by_cases hg : getenv "GLOBAL_ENDPOINT" ≠ ""
      · rw [if_pos hg] at h
        simp only [GoMap.set, GoMap.empty, List.filter_nil, List.mem_singleton] at h
        subst h
        exact ⟨rfl, Or.inl rfl⟩
      · rw [if_neg hg] at h
        simp [GoMap.empty] at h
    · exact ⟨h2, Or.inr (mem_items_of_map_ok _ items recs hrecs e.2 h1)⟩
  · refine ⟨_, generateConfig_eq getenv afterS none api items rfl hnew hlist, ?_⟩
    intro e he
    rw [decodeSlice_all_ok _ _ items svcs hsvcs] at he
    rcases mem_entries_foldl_set (fun s : Service => s.Region) _ _ e he with h | ⟨h1, h2⟩
    · simp only [GoMap.set, GoMap.empty, List.filter_nil, List.mem_singleton] at h
      subst h
      exact ⟨rfl, Or.inl rfl⟩
    · exact ⟨h2, Or.inr (mem_items_of_map_ok _ items svcs hsvcs e.2 h1)⟩

/-- An instance: an item for us-central1, an item without labels and a nil
service, with GLOBAL_ENDPOINT set. -/
theorem directory_entries_from_items_witness :
    (∃ dir, GenerateConfig (sampleEnv "https://global.example.com") (stopAtError {})
        (sampleAPI [sampleItem "https://us.example.com" "us-central1" "Iowa",
          .object [], .null]) = .ok dir ∧
      ∀ e ∈ dir.entries, e.2.Region = e.1 ∧
        (e.2 = globalEndpoint (sampleEnv "https://global.example.com") ∨
         ∃ it ∈ [sampleItem "https://us.example.com" "us-central1" "Iowa", .object [], .null],
            Endpoint.unmarshalValue it = .ok e.2)) ∧
    (∃ dir, generateConfig (sampleEnv "https://global.example.com") (stopAtError {}) none
        (sampleAPI [sampleItem "https://us.example.com" "us-central1" "Iowa",
          .object [], .null]) = .ok dir ∧
      ∀ e ∈ dir.entries, e.2.Region = e.1 ∧
        (e.2 = globalService ∨
         ∃ it ∈ [sampleItem "https://us.example.com" "us-central1" "Iowa", .object [], .null],
            Service.unmarshalValue it = .ok e.2)) :=
  directory_entries_from_items (sampleEnv "https://global.example.com")
    (stopAtError {}) (stopAtError {})
    (sampleAPI [sampleItem "https://us.example.com" "us-central1" "Iowa", .object [], .null])
    [sampleItem "https://us.example.com" "us-central1" "Iowa", .object [], .null]
    rfl rfl (by decide)

end Gcping
